/-
  Verification of the note storage and retrieval subsystem of a
  calendar-notes tool (note_manager.py, calendar_integration.py).

  The Python code is shallowly embedded: the filesystem is an association
  list from paths to file records, Python strings are Lean strings
  (operated on through their character lists, which matches Python's
  code-point indexing), datetimes are carried as ISO-8601 strings ordered
  lexicographically, and every fallible operation returns an Option where
  the Python code can raise.  External libraries are modelled explicitly:
  the YAML subset that yaml.dump / yaml.safe_load exercise on this
  program's data (block mappings with plain or single-quoted scalars, one
  nesting level, block sequences of scalars) is implemented as executable
  Lean functions, and the rapidfuzz scorers are taken as parameters, since
  only their 0..100 range is relevant to the specification.
-/
import Mathlib

namespace CalNotes

/-! ### Python string primitives -/

/-- Whitespace characters recognised by Python's str.strip (ASCII part). -/
def pyIsSpace (c : Char) : Bool :=
  c = ' ' || c = '\t' || c = '\n' || c = '\r' || c = Char.ofNat 11 || c = Char.ofNat 12

/-- The single-quote character, written via its code point. -/
def sq : Char := Char.ofNat 39

/-- Python str.strip on a character list. -/
def stripChars (l : List Char) : List Char :=
  ((l.dropWhile pyIsSpace).reverse.dropWhile pyIsSpace).reverse

/-- Python str.strip. -/
def pyStrip (s : String) : String := ⟨stripChars s.data⟩

/-- Python str.lower, ASCII case folding. -/
def pyLower (s : String) : String := ⟨s.data.map Char.toLower⟩

/-- Index of the first occurrence of the pattern p in l (None if absent),
    as Python str.find restricted to a nonnegative result. -/
def subFind (l : List Char) (p : List Char) : Option Nat :=
  match l with
  | [] => if p.isEmpty then some 0 else none
  | _ :: t => if p.isPrefixOf l then some 0 else (subFind t p).map (· + 1)

/-- Python s.find(sub, start): first occurrence at or after start. -/
def pyFind (s sub : String) (start : Nat) : Option Nat :=
  (subFind (s.data.drop start) sub.data).map (· + start)

/-- Python membership test (sub in s). -/
def pyInStr (sub s : String) : Bool := (subFind s.data sub.data).isSome

/-- Helper for splitting a character list at newlines (str.split of Python). -/
def splitNLAux : List Char → List Char → List (List Char)
  | acc, [] => [acc.reverse]
  | acc, c :: rest =>
    if c = '\n' then acc.reverse :: splitNLAux [] rest else splitNLAux (c :: acc) rest

/-- Python s.split of a newline separator, on character lists. -/
def splitNL (l : List Char) : List (List Char) := splitNLAux [] l

/-- Helper for Python readlines (keeps the newline terminators). -/
def readLinesAux : List Char → List Char → List String
  | acc, [] => if acc.isEmpty then [] else [⟨acc.reverse⟩]
  | acc, c :: rest =>
    if c = '\n' then (⟨(c :: acc).reverse⟩ : String) :: readLinesAux [] rest
    else readLinesAux (c :: acc) rest

/-- Python file.readlines over the whole content: lines keep their
    terminating newline; a final fragment without a newline is kept. -/
def pyReadLines (s : String) : List String := readLinesAux [] s.data

/-- Python list indexing with negative-index wraparound; none models
    IndexError. -/
def pyIndex (l : List α) (i : Int) : Option α :=
  if 0 ≤ i then l.get? i.toNat
  else if 0 ≤ i + l.length then l.get? (i + l.length).toNat else none

/-- Python del l[i] with negative-index wraparound; none models IndexError. -/
def pyDelIdx (l : List α) (i : Int) : Option (List α) :=
  if 0 ≤ i then if i.toNat < l.length then some (l.eraseIdx i.toNat) else none
  else if 0 ≤ i + l.length then some (l.eraseIdx (i + l.length).toNat) else none

/-! ### re-based helpers used by _sanitize_filename -/

/-- Python regex word character, ASCII part of the \w class. -/
def pyIsWord (c : Char) : Bool :=
  (('a' ≤ c && c ≤ 'z') || ('A' ≤ c && c ≤ 'Z') || ('0' ≤ c && c ≤ '9') || c = '_')

/-- Helper for collapseWs: the flag records whether we are inside a
    whitespace run whose underscore was already emitted. -/
def collapseWsAux : Bool → List Char → List Char
  | _, [] => []
  | inSp, c :: rest =>
    if pyIsSpace c then
      if inSp then collapseWsAux true rest else '_' :: collapseWsAux true rest
    else c :: collapseWsAux false rest

/-- Model of re.sub of one-or-more-whitespace by a single underscore:
    each maximal whitespace run is replaced by one underscore. -/
def collapseWs (l : List Char) : List Char := collapseWsAux false l

/-! ### Datetimes and calendar events

Python datetimes are modelled as a plain record of clock fields; strftime
and isoformat render them.  Where the source stores or compares datetimes
they are carried as their ISO-8601 rendering, which orders
lexicographically the same way datetimes order chronologically. -/

/-- Render a natural zero-padded to the given width. -/
def padNat (w : Nat) (n : Nat) : String :=
  let s := toString n
  ⟨List.replicate (w - s.length) '0' ++ s.data⟩

/-- Model of a Python datetime value. -/
structure PyDateTime where
  year : Nat
  month : Nat
  day : Nat
  hour : Nat
  minute : Nat
  second : Nat

/-- strftime of the date part, as %Y-%m-%d. -/
def PyDateTime.dateStr (dt : PyDateTime) : String :=
  padNat 4 dt.year ++ "-" ++ padNat 2 dt.month ++ "-" ++ padNat 2 dt.day

/-- strftime of %H%M. -/
def PyDateTime.hhmm (dt : PyDateTime) : String :=
  padNat 2 dt.hour ++ padNat 2 dt.minute

/-- strftime of %H:%M. -/
def PyDateTime.hhcmm (dt : PyDateTime) : String :=
  padNat 2 dt.hour ++ ":" ++ padNat 2 dt.minute

/-- datetime.isoformat (microseconds zero, no timezone). -/
def PyDateTime.iso (dt : PyDateTime) : String :=
  dt.dateStr ++ "T" ++ padNat 2 dt.hour ++ ":" ++ padNat 2 dt.minute ++ ":"
    ++ padNat 2 dt.second

/-- CalendarEvent of calendar_integration.py: the external event
    descriptor consumed by the note manager. -/
structure CalendarEvent where
  event_id : String
  title : String
  start_date : PyDateTime
  end_date : PyDateTime
  calendar_name : String
  location : Option String := none
  notes : Option String := none
  is_all_day : Bool := false

/-- CalendarEvent.date_str property. -/
def CalendarEvent.date_str (e : CalendarEvent) : String := e.start_date.dateStr

/-- CalendarEvent.time_str property (the duration rendering is taken as
    given by the same record since no claim depends on it). -/
def CalendarEvent.time_str (e : CalendarEvent) : String :=
  if e.is_all_day then "All day"
  else e.start_date.hhcmm ++ " - " ++ e.end_date.hhcmm

/-! ### The filesystem model

An association list from path strings to file records, in traversal
order.  A write of a fresh path appends; a write of an existing path
replaces the content in place; unlink removes the entry.  The stat times
used by the no-frontmatter fallback of _load_note are carried as ISO
strings on the record. -/

/-- A stored file: its content plus the stat timestamps. -/
structure Fil where
  content : String
  ctime : String
  mtime : String

/-- The filesystem: paths (relative to the base directory) to files. -/
abbrev FS := List (String × Fil)

/-- Read a file (first matching entry). -/
def fsRead (fs : FS) (p : String) : Option Fil :=
  (List.find? (fun e => e.1 = p) fs).map (·.2)

/-- Path existence check. -/
def fsExists (fs : FS) (p : String) : Bool := (fsRead fs p).isSome

/-- Write a file: replace in place if the path exists, else append. -/
def fsWrite (fs : FS) (p : String) (f : Fil) : FS :=
  if fsExists fs p then
    fs.map (fun e => if e.1 = p then (p, f) else e)
  else fs ++ [(p, f)]

/-- Remove a file (os.unlink). -/
def fsRemove (fs : FS) (p : String) : FS := fs.filter (fun e => ¬ e.1 = p)

/-! ### Python stable sorting

list.sort(key=k, reverse=True) sorts by the key descending and keeps
elements with equal keys in their original order.  Stable sorts agree on
their output, so Mathlib's insertion sort with the relation
"key of the left is at least the key of the right" is an exact model. -/

/-- Python list.sort(key, reverse=True): stable, by key descending. -/
def pySortRevByKey [LinearOrder β] (key : α → β) (l : List α) : List α :=
  l.insertionSort (fun a b => key b ≤ key a)

/-! ### YAML values

Model of the YAML fragment this program exercises: block mappings whose
values are plain or single-quoted scalars, nulls, booleans, an empty flow
sequence, a block sequence of scalars, or one nested block mapping of
scalars.  yaml.safe_load is modelled by the executable ySafeLoad below;
inputs outside the subset are parse errors. -/

/-- A YAML value as produced by the modelled safe_load subset. -/
inductive Yaml where
  | null : Yaml
  | b : Bool → Yaml
  | s : String → Yaml
  | seq : List Yaml → Yaml
  | map : List (String × Yaml) → Yaml

/-- Python truthiness of a parsed YAML value. -/
def pyTruthy : Yaml → Bool
  | .null => false
  | .b v => v
  | .s t => ¬ t.isEmpty
  | .seq l => ¬ l.isEmpty
  | .map l => ¬ l.isEmpty

/-- Words the YAML 1.1 resolver reads as null. -/
def yamlNullWords : List String := ["null", "Null", "NULL", "~"]

/-- Words the YAML 1.1 resolver reads as true. -/
def yamlTrueWords : List String :=
  ["true", "True", "TRUE", "yes", "Yes", "YES", "on", "On", "ON"]

/-- Words the YAML 1.1 resolver reads as false. -/
def yamlFalseWords : List String :=
  ["false", "False", "FALSE", "no", "No", "NO", "off", "Off", "OFF"]

/-- Resolve one scalar: strip, unquote single quotes, resolve the special
    words, else a string. -/
def parseScalar (v : List Char) : Yaml :=
  let t := stripChars v
  if t.isEmpty then .null
  else if 2 ≤ t.length ∧ t.head? = some sq ∧ t.getLast? = some sq then
    .s ⟨(t.drop 1).dropLast⟩
  else
    let w : String := ⟨t⟩
    if yamlNullWords.contains w then .null
    else if yamlTrueWords.contains w then .b true
    else if yamlFalseWords.contains w then .b false
    else if w = "[]" then .seq []
    else .s w

/-- Split a mapping line into its key and optional value text: the key is
    everything before the first colon, the value follows a colon-space. -/
def splitKey (l : List Char) : Option (String × Option (List Char)) :=
  let key := l.takeWhile (fun c => ¬ c = ':')
  let rest := l.dropWhile (fun c => ¬ c = ':')
  match rest with
  | [] => none
  | _ :: r =>
    if key.isEmpty then none
    else
      match r with
      | [] => some (⟨key⟩, none)
      | ' ' :: v => some (⟨key⟩, some v)
      | _ => none

/-- Parse an indented block of scalar-valued mapping lines (already
    un-indented by two columns). -/
def parseSubMap : List (List Char) → Option (List (String × Yaml))
  | [] => some []
  | l :: rest =>
    match splitKey l with
    | some (k, some v) => (parseSubMap rest).map (fun m => (k, parseScalar v) :: m)
    | some (k, none) => (parseSubMap rest).map (fun m => (k, Yaml.null) :: m)
    | none => none

/-- Is this line a block-sequence item line? -/
def isDashLine (l : List Char) : Bool := ("- ".data).isPrefixOf l

/-- Is this line indented by two spaces? -/
def isIndented (l : List Char) : Bool := ("  ".data).isPrefixOf l

/-- Fuelled worker for parseMapping: the fuel only serves structural
    recursion and is always sufficient when started at the line count. -/
def parseMappingF : Nat → List (List Char) → Option (List (String × Yaml))
  | _, [] => some []
  | 0, _ :: _ => none
  | fuel + 1, l :: rest =>
    match splitKey l with
    | none => none
    | some (k, some v) => (parseMappingF fuel rest).map (fun m => (k, parseScalar v) :: m)
    | some (k, none) =>
      match rest.head? with
      | none => some [(k, Yaml.null)]
      | some r =>
        if isDashLine r then
          let items := rest.takeWhile isDashLine
          let rest2 := rest.dropWhile isDashLine
          (parseMappingF fuel rest2).map
            (fun m => (k, Yaml.seq (items.map (fun x => parseScalar (x.drop 2)))) :: m)
        else if isIndented r then
          let sub := rest.takeWhile isIndented
          let rest2 := rest.dropWhile isIndented
          match parseSubMap (sub.map (fun x => x.drop 2)) with
          | none => none
          | some sm => (parseMappingF fuel rest2).map (fun m => (k, Yaml.map sm) :: m)
        else (parseMappingF fuel rest).map (fun m => (k, Yaml.null) :: m)

/-- Parse a top-level block mapping: each entry is either key-colon-value,
    or a bare key-colon followed by a block sequence, an indented
    sub-mapping, or nothing (null). -/
def parseMapping (lines : List (List Char)) : Option (List (String × Yaml)) :=
  parseMappingF lines.length lines

/-- Parse a whole (pre-stripped) document: a block mapping, a top-level
    block sequence, or a single scalar line; anything else is an error. -/
def parseBlock (lines : List (List Char)) : Option Yaml :=
  match parseMapping lines with
  | some m => some (.map m)
  | none =>
    if ¬ lines.isEmpty ∧ lines.all isDashLine then
      some (.seq (lines.map (fun x => parseScalar (x.drop 2))))
    else
      match lines with
      | [l] => some (parseScalar l)
      | _ => none

/-- Model of yaml.safe_load on the subset: none models a YAMLError. -/
def ySafeLoad (raw : String) : Option Yaml :=
  if raw.data.isEmpty then some .null
  else parseBlock (splitNL raw.data)

/-! ### The frontmatter encoder

yaml.dump(frontmatter, default_flow_style=False, allow_unicode=True)
writes the mapping with its keys sorted alphabetically, one entry per
line, block style for nested structures, flow style only for the empty
list.  A scalar is written plain unless its plain form would not re-load
as the same string: the resolver would re-type the null/boolean keywords
and timestamp- or number-like strings, and plain style cannot carry an
empty string, leading or trailing spaces, or a scalar already wrapped in
single quotes; those are single-quoted.  (PyYAML additionally quotes a
few indicator-led spellings that the resolver leaves alone; for those
both the plain and the quoted form re-load as the same string, so the
choice cannot affect the round trip this file studies.) -/

/-- The YAML 1.1 keywords that resolve to null or a boolean. -/
def yamlSpecialWords : List String := yamlNullWords ++ yamlTrueWords ++ yamlFalseWords

/-- Does the string look like a YAML 1.1 timestamp (so that yaml.dump
    single-quotes it to keep it a string)?  Four digits then a dash. -/
def isTimestampLike (s : String) : Bool :=
  match s.data with
  | a :: b :: c :: d :: e :: _ => a.isDigit && b.isDigit && c.isDigit && d.isDigit && e = '-'
  | _ => false

/-- Does the string look like a YAML 1.1 number — an optional sign, then
    digits possibly mixed with dots, underscores or sexagesimal colons —
    so that the resolver would re-read it as int or float and yaml.dump
    single-quotes it?  The approximation errs only on strings the
    resolver leaves alone, where quoting is round-trip-neutral. -/
def numLike (s : String) : Bool :=
  let t := match s.data with
           | c :: r => if c = '+' ∨ c = '-' then r else s.data
           | [] => []
  !t.isEmpty && t.all (fun c => c.isDigit || c = '.' || c = '_' || c = ':')
    && t.any (fun c => c.isDigit)

/-- Is the scalar single-quoted by yaml.dump?  Exactly when its plain
    form would not re-load as the same string. -/
def needsQuote (s : String) : Bool :=
  s.data.isEmpty
  || yamlSpecialWords.contains s
  || isTimestampLike s
  || numLike s
  || s = "[]"
  || (match s.data.head? with | some c => pyIsSpace c | none => false)
  || (match s.data.getLast? with | some c => pyIsSpace c | none => false)
  || (decide (2 ≤ s.data.length) && decide (s.data.head? = some sq)
        && decide (s.data.getLast? = some sq))

/-- Dump one scalar: single-quoted when needed, else plain. -/
def dumpScalar (s : String) : String :=
  if needsQuote s then ⟨sq :: (s.data ++ [sq])⟩ else s

/-- The nested mapping written under the event key by _create_frontmatter. -/
structure EventMeta where
  id : String
  title : String
  date : String
  calendar : String
  location : Option String
  all_day : Bool

/-- The lines of the dumped frontmatter mapping, in sorted key order:
    created, event (when present, with its keys also sorted), tags,
    title, updated. -/
def fmLines (now title : String) (tags : List String) (ev : Option EventMeta) :
    List (List Char) :=
  ("created: " ++ dumpScalar now).data
    :: ((match ev with
        | none => []
        | some e =>
          ["event:".data,
           ("  all_day: " ++ (if e.all_day then "true" else "false")).data,
           ("  calendar: " ++ dumpScalar e.calendar).data,
           ("  date: " ++ dumpScalar e.date).data,
           ("  id: " ++ dumpScalar e.id).data,
           ("  location: " ++
             (match e.location with | none => "null" | some l => dumpScalar l)).data,
           ("  title: " ++ dumpScalar e.title).data])
      ++ (if tags.isEmpty then ["tags: []".data]
          else "tags:".data :: tags.map (fun t => ("- " ++ dumpScalar t).data))
      ++ [("title: " ++ dumpScalar title).data, ("updated: " ++ dumpScalar now).data])

/-- Join dumped lines, each terminated by a newline (yaml.dump output
    ends with a newline). -/
def linesText (L : List (List Char)) : List Char :=
  (L.map (fun l => l ++ ['\n'])).flatten

/-- _create_frontmatter with its dynamic parts (datetime.now and the
    event's rendered fields) made explicit: the yaml.dump output text. -/
def encodeFrontmatter (now title : String) (tags : List String) (ev : Option EventMeta) :
    String :=
  ⟨linesText (fmLines now title tags ev)⟩

/-- The EventMeta a CalendarEvent is serialised to. -/
def CalendarEvent.meta (e : CalendarEvent) : EventMeta :=
  ⟨e.event_id, e.title, e.start_date.iso, e.calendar_name, e.location, e.is_all_day⟩

/-- NoteManager._create_frontmatter: title, created and updated set to
    now, tags defaulted to the empty list, plus the nested event mapping
    when an event is given. -/
def create_frontmatter (now : PyDateTime) (title : String) (event : Option CalendarEvent)
    (tags : Option (List String)) : String :=
  encodeFrontmatter now.iso title (tags.getD []) (event.map CalendarEvent.meta)

/-- NoteManager._parse_frontmatter: requires the leading marker, cuts at
    the next occurrence of the marker from offset 3 on, strips, and
    safe-loads.  The Python function returns None both for a missing or
    unparseable block and when the block parses to YAML null, since None
    is its only absent signal; both collapse to none here. -/
def parse_frontmatter (content : String) : Option Yaml :=
  if ¬ ("---".data).isPrefixOf content.data then none
  else
    match subFind (content.data.drop 3) "---".data with
    | none => none
    | some k =>
      match ySafeLoad ⟨stripChars ((content.data.drop 3).take k)⟩ with
      | none => none
      | some .null => none
      | some y => some y

/-! ### Loading notes -/

/-- pathlib basename: the part after the last slash. -/
def pathBaseName (p : String) : String :=
  ⟨(p.data.reverse.takeWhile (fun c => ¬ c = '/')).reverse⟩

/-- pathlib Path.stem: the basename minus its last suffix (a leading dot
    alone is not a suffix). -/
def pathStem (p : String) : String :=
  let b := pathBaseName p
  let afterDot := b.data.reverse.dropWhile (fun c => ¬ c = '.')
  match afterDot with
  | [] => b
  | _ :: restRev => if restRev.isEmpty then b else ⟨restRev.reverse⟩

/-- Is the string a datetime.fromisoformat-acceptable timestamp?  The
    modelled shape: YYYY-MM-DD, optionally a separator and HH:MM:SS,
    optionally dot-microseconds. -/
def isoTimeValid : List Char → Bool
  | [] => true
  | e :: h1 :: h2 :: c1 :: m1 :: m2 :: c2 :: s1 :: s2 :: rest =>
    (e = 'T' || e = ' ') && h1.isDigit && h2.isDigit && c1 = ':' && m1.isDigit
      && m2.isDigit && c2 = ':' && s1.isDigit && s2.isDigit
      && (match rest with
          | [] => true
          | d :: ds => d = '.' && ¬ ds.isEmpty && ds.all Char.isDigit)
  | _ => false

/-- datetime.fromisoformat validity on the modelled shape. -/
def isoValid (s : String) : Bool :=
  match s.data with
  | y1 :: y2 :: y3 :: y4 :: d1 :: mo1 :: mo2 :: d2 :: dd1 :: dd2 :: rest =>
    y1.isDigit && y2.isDigit && y3.isDigit && y4.isDigit && d1 = '-' && mo1.isDigit
      && mo2.isDigit && d2 = '-' && dd1.isDigit && dd2.isDigit && isoTimeValid rest
  | _ => false

/-- datetime.fromisoformat applied to a parsed YAML value: raises (none)
    on a non-string or an invalid shape; datetimes are carried as their
    ISO rendering. -/
def yamlToIsoStr : Yaml → Option String
  | .s t => if isoValid t then some t else none
  | _ => none

/-- Collapse dict.get results the way Python does: a missing key and a
    stored null both read back as None. -/
def yOptVal : Option Yaml → Option Yaml
  | none => none
  | some .null => none
  | some y => some y

/-- The Note record of note_manager.py.  The title and tags fields keep
    their dynamic YAML values (Python stores whatever the mapping held);
    timestamps are ISO strings. -/
structure PyNote where
  filepath : String
  title : Yaml
  created_at : String
  updated_at : String
  event_id : Option Yaml := none
  event_title : Option Yaml := none
  event_date : Option String := none
  tags : Yaml := .seq []

/-- NoteManager._load_note.  A file whose frontmatter is missing or falsy
    degrades to a stem-titled note with stat timestamps; any raised step
    (a truthy non-mapping frontmatter, a bad created or updated value, a
    non-mapping event value, a bad event date) yields none, matching the
    blanket except that skips the note. -/
def load_note (p : String) (f : Fil) (now : String) : Option PyNote :=
  match parse_frontmatter f.content with
  | none => some { filepath := p, title := .s (pathStem p),
                   created_at := f.ctime, updated_at := f.mtime }
  | some fm =>
    if ¬ pyTruthy fm then
      some { filepath := p, title := .s (pathStem p),
             created_at := f.ctime, updated_at := f.mtime }
    else
      match fm with
      | .map es =>
        let dget := fun k => (es.find? (fun e : String × Yaml => e.1 = k)).map (·.2)
        match (dget "event").getD (.map []) with
          | .map es2 =>
            let edget := fun k => (es2.find? (fun e : String × Yaml => e.1 = k)).map (·.2)
            match yamlToIsoStr ((dget "created").getD (.s now)) with
            | none => none
            | some createdS =>
              match yamlToIsoStr ((dget "updated").getD (.s now)) with
              | none => none
              | some updatedS =>
                match (match yOptVal (edget "date") with
                       | some dv => (yamlToIsoStr dv).map some
                       | none => some none : Option (Option String)) with
                | none => none
                | some dateOpt =>
                  some { filepath := p,
                         title := (dget "title").getD (.s (pathStem p)),
                         created_at := createdS, updated_at := updatedS,
                         event_id := yOptVal (edget "id"),
                         event_title := yOptVal (edget "title"),
                         event_date := dateOpt,
                         tags := (dget "tags").getD (.seq []) }
          | _ => none
      | _ => none

/-- Does rglob("*.md") under the notes root yield this path? -/
def isMdUnderNotes (p : String) : Bool :=
  ("notes/".data).isPrefixOf p.data && (".md".data).isSuffixOf p.data

/-- Does glob("*.md") in the events directory yield this path? -/
def isMdInEvents (p : String) : Bool :=
  ("notes/events/".data).isPrefixOf p.data && (".md".data).isSuffixOf p.data
    && (p.data.drop ("notes/events/".length)).all (fun c => ¬ c = '/')

/-- NoteManager.get_all_notes: load every markdown file under the notes
    root, skip failures, sort by updated timestamp descending. -/
def get_all_notes (fs : FS) (now : String) : List PyNote :=
  pySortRevByKey (fun n => n.updated_at)
    ((fs.filter (fun e => isMdUnderNotes e.1)).filterMap (fun e => load_note e.1 e.2 now))

/-- NoteManager.get_event_notes: the events directory only, sorted by
    event date (falling back to created) descending. -/
def get_event_notes (fs : FS) (now : String) : List PyNote :=
  pySortRevByKey (fun n => n.event_date.getD n.created_at)
    ((fs.filter (fun e => isMdInEvents e.1)).filterMap (fun e => load_note e.1 e.2 now))

/-- Python note.event_id == event_id for a string event_id. -/
def eventIdIs (idv : Option Yaml) (eid : String) : Bool :=
  match idv with
  | some (.s t) => t = eid
  | _ => false

/-- NoteManager.find_note_for_event: first event note whose id matches. -/
def find_note_for_event (fs : FS) (now : String) (eid : String) : Option PyNote :=
  (get_event_notes fs now).find? (fun n => eventIdIs n.event_id eid)

/-! ### Filenames and note creation -/

/-- NoteManager._sanitize_filename: drop characters outside word,
    whitespace and hyphen; collapse whitespace runs to single
    underscores; truncate to 100 characters. -/
def sanitize_filename (name : String) : String :=
  ⟨(collapseWs (name.data.filter (fun c => pyIsWord c || pyIsSpace c || c = '-'))).take 100⟩

/-- NoteManager._generate_event_filename. -/
def generate_event_filename (e : CalendarEvent) : String :=
  e.start_date.dateStr ++ "_"
    ++ (if ¬ e.is_all_day then e.start_date.hhmm else "allday") ++ "_"
    ++ sanitize_filename e.title ++ ".md"

/-- CalendarEvent.duration_str, modelled for events within one day: the
    seconds field of the end-minus-start timedelta, rendered as hours and
    minutes. -/
def CalendarEvent.duration_str (e : CalendarEvent) : String :=
  if e.is_all_day then "All day"
  else
    let secs : Int :=
      (((e.end_date.hour * 3600 + e.end_date.minute * 60 + e.end_date.second : Nat) : Int)
        - ((e.start_date.hour * 3600 + e.start_date.minute * 60 + e.start_date.second
             : Nat) : Int)) % 86400
    let sec := secs.toNat
    let hours := sec / 3600
    let minutes := (sec % 3600) / 60
    if 0 < hours then
      if ¬ minutes = 0 then toString hours ++ "h " ++ toString minutes ++ "m"
      else toString hours ++ "h"
    else toString minutes ++ "m"

/-- NoteManager._create_note_template.  The Indico agenda fetch is an
    external network call wrapped in a blanket try; its outcome is the
    agenda argument (none covers both no-link and a failed fetch). -/
def create_note_template (now : PyDateTime) (title : String) (event : Option CalendarEvent)
    (agenda : Option String) : String :=
  let fm := create_frontmatter now title event none
  match event with
  | some e =>
    "---\n" ++ fm ++ "---\n\n# " ++ title ++ "\n\n## Event Details\n\n- **Date**: "
      ++ e.date_str ++ "\n- **Time**: " ++ e.time_str ++ "\n- **Duration**: "
      ++ e.duration_str ++ "\n- **Calendar**: " ++ e.calendar_name ++ "\n"
      ++ (match e.location with
          | some l => if ¬ l.isEmpty then "- **Location**: " ++ l ++ "\n" else ""
          | none => "")
      ++ "\n## Notes\n\n"
      ++ (match e.notes with
          | some n0 => if ¬ n0.isEmpty then "> " ++ n0 ++ "\n\n" else ""
          | none => "")
      ++ (match agenda with
          | some a => if ¬ a.isEmpty then a ++ "\n" else ""
          | none => "")
      ++ "## Action Items\n\n- [ ] \n\n## Summary\n\n"
  | none =>
    "---\n" ++ fm ++ "---\n\n# " ++ title ++ "\n\n## Notes\n\n"

/-- NoteManager.create_note_for_event: compute the path; if it already
    exists return it unchanged, else write the template there. -/
def create_note_for_event (fs : FS) (now : PyDateTime) (e : CalendarEvent)
    (agenda : Option String) : String × FS :=
  let filepath := "notes/events/" ++ generate_event_filename e
  if fsExists fs filepath then (filepath, fs)
  else
    (filepath,
     fsWrite fs filepath ⟨create_note_template now e.title (some e) agenda, now.iso, now.iso⟩)

/-- NoteManager.get_or_create_note_for_event: find by event id, else
    create. -/
def get_or_create_note_for_event (fs : FS) (now : PyDateTime) (e : CalendarEvent)
    (agenda : Option String) : String × FS :=
  match find_note_for_event fs now.iso e.event_id with
  | some n => (n.filepath, fs)
  | none => create_note_for_event fs now e agenda

/-- NoteManager.delete_note: unlink the backing file; a raised unlink (the
    file is gone) is caught and reported as false.  Other failure modes
    (permissions) are outside the filesystem model. -/
def delete_note (fs : FS) (n : PyNote) : Bool × FS :=
  if fsExists fs n.filepath then (true, fsRemove fs n.filepath) else (false, fs)

/-! ### Search -/

/-- The body of NoteManager.search_notes over an already-listed note
    sequence; none models the AttributeError raised by title.lower() on a
    non-string title (the content read, by contrast, sits inside a
    swallowing try). -/
def searchAux (fs : FS) (ql : String) : List PyNote → Option (List PyNote)
  | [] => some []
  | n :: rest =>
    match n.title with
    | .s t =>
      if pyInStr ql (pyLower t) then (searchAux fs ql rest).map (n :: ·)
      else
        match fsRead fs n.filepath with
        | none => searchAux fs ql rest
        | some f =>
          if pyInStr ql (pyLower f.content) then (searchAux fs ql rest).map (n :: ·)
          else searchAux fs ql rest
    | _ => none

/-- NoteManager.search_notes: exact case-insensitive substring search over
    title and full content. -/
def search_notes (fs : FS) (now : String) (q : String) : Option (List PyNote) :=
  searchAux fs (pyLower q) (get_all_notes fs now)

/-- The two rapidfuzz scorers, taken as parameters of the embedding; the
    claims only rely on their 0..100 range. -/
structure RapidFuzz where
  partialScore : String → String → Int
  tokenSetScore : String → String → Int

/-- Strip the frontmatter block from content before fuzzy body search. -/
def fuzzyBody (content : String) : String :=
  if ("---".data).isPrefixOf content.data then
    match pyFind content "---" 3 with
    | some e => ⟨content.data.drop (e + 3)⟩
    | none => content
  else content

/-- The context snippet: the matched line joined with its stripped
    nonempty neighbours, truncated to 100 characters plus an ellipsis. -/
def mkSnippet (lines : List String) (i : Nat) : String :=
  let start := i - 1
  let stop := min lines.length (i + 2)
  let ctx := (lines.drop start).take (stop - start)
  let joined := String.intercalate " " ((ctx.map pyStrip).filter (fun l => ¬ l.isEmpty))
  if 100 < joined.data.length then ⟨joined.data.take 100⟩ ++ "..." else joined

/-- The body-line scoring loop of fuzzy_search_notes: fold over the line
    indices, keeping the best score and its snippet. -/
def scoreLines (pr : String → String → Int) (ql : String) (lines : List String)
    (init : Int × Option String) : Int × Option String :=
  (List.range lines.length).foldl
    (fun acc i =>
      let line := (lines.get? i).getD ""
      let ls := pyStrip line
      if ls.data.length < 3 then acc
      else
        let sc := pr ql (pyLower ls)
        if acc.1 < sc then (sc, some (mkSnippet lines i)) else acc)
    init

/-- Score one note: the best of partial title score, token-set title
    score, and per-line body scores; none models the AttributeError of
    title.lower() on a non-string title. -/
def scoreNote (rf : RapidFuzz) (fs : FS) (ql : String) (n : PyNote) :
    Option (Int × Option String) :=
  match n.title with
  | .s t =>
    let tl := pyLower t
    let b0 : Int × Option String := (0, none)
    let ts := rf.partialScore ql tl
    let b1 := if b0.1 < ts then (ts, (none : Option String)) else b0
    let tok := rf.tokenSetScore ql tl
    let b2 := if b1.1 < tok then (tok, (none : Option String)) else b1
    some (match fsRead fs n.filepath with
          | none => b2
          | some f => scoreLines rf.partialScore ql
              ((splitNL (fuzzyBody f.content).data).map (fun l => (⟨l⟩ : String))) b2)
  | _ => none

/-- The threshold filter loop of fuzzy_search_notes, in listing order. -/
def fuzzyCollect (rf : RapidFuzz) (fs : FS) (ql : String) (threshold : Int) :
    List PyNote → Option (List (PyNote × Int × Option String))
  | [] => some []
  | n :: rest =>
    match scoreNote rf fs ql n with
    | none => none
    | some sc =>
      match fuzzyCollect rf fs ql threshold rest with
      | none => none
      | some tail =>
        some (if threshold ≤ sc.1 then (n, sc.1, sc.2) :: tail else tail)

/-- NoteManager.fuzzy_search_notes.  rf = none is the ImportError branch
    falling back to exact search at score 100; otherwise an empty query
    short-circuits to the empty list, every listed note is scored, kept
    when the best score reaches the threshold, and the results are sorted
    by score descending (stable). -/
def fuzzy_search_notes (rf : Option RapidFuzz) (fs : FS) (now : String) (q : String)
    (threshold : Int) : Option (List (PyNote × Int × Option String)) :=
  match rf with
  | none => (search_notes fs now q).map (List.map (fun n => (n, (100 : Int), (none : Option String))))
  | some r =>
    if q.isEmpty then some []
    else (fuzzyCollect r fs (pyLower q) threshold (get_all_notes fs now)).map
      (pySortRevByKey (fun t => t.2.1))

/-! ### Todos -/

/-- A TodoItem of note_manager.py.  line_number is a Python int; its
    1-based-ness is a documented invariant of the dataclass, not of the
    type. -/
structure TodoItem where
  filepath : String
  line_number : Int
  content : String
  full_line : String
  note_title : Yaml

/-- The item content extracted after a marker occurrence at index j:
    everything past the marker, stripped, with one leading colon (and the
    whitespace around it) removed. -/
def todoContentAfter (line : String) (j : Nat) : String :=
  let c0 := pyStrip ⟨line.data.drop (j + 5)⟩
  if c0.data.head? = some ':' then pyStrip ⟨c0.data.drop 1⟩ else c0

/-- One line of the todo scan: a case-insensitive find of the marker;
    when found, one item carrying the extracted content. -/
def todoLineItem (p : String) (ntitle : Yaml) (idx1 : Nat) (line : String) :
    Option TodoItem :=
  match pyFind (pyLower line) "#todo" 0 with
  | none => none
  | some j => some ⟨p, (idx1 : Int), todoContentAfter line j, line, ntitle⟩

/-- The line loop of get_all_todos, enumerating from a start index. -/
def scanLines (p : String) (ntitle : Yaml) (start : Nat) (lines : List String) :
    List TodoItem :=
  (List.enumFrom start lines).filterMap (fun e => todoLineItem p ntitle e.1 e.2)

/-- The per-file body of get_all_todos: readlines, resolve the note
    title, scan each 1-based line. -/
def scanFileTodos (p : String) (f : Fil) (now : String) : List TodoItem :=
  let ntitle : Yaml :=
    match load_note p f now with
    | some n => n.title
    | none => .s (pathStem p)
  scanLines p ntitle 1 (pyReadLines f.content)

/-- NoteManager.get_all_todos over every markdown file under the notes
    root, in traversal order. -/
def get_all_todos (fs : FS) (now : String) : List TodoItem :=
  (fs.filter (fun e => isMdUnderNotes e.1)).flatMap (fun e => scanFileTodos e.1 e.2 now)

/-- NoteManager.complete_todo: re-read the file; if the stored line number
    is within bounds and the stripped line still matches, delete it and
    rewrite; otherwise fail without touching the file.  A failed read is
    the caught I/O failure.  The Python index and del go through the
    negative-wraparound helpers, faithful to ints below 1. -/
def complete_todo (fs : FS) (todo : TodoItem) : Bool × FS :=
  match fsRead fs todo.filepath with
  | none => (false, fs)
  | some f =>
    let lines := pyReadLines f.content
    if todo.line_number ≤ (lines.length : Int) then
      match pyIndex lines (todo.line_number - 1) with
      | none => (false, fs)
      | some current =>
        if pyStrip current = pyStrip todo.full_line then
          match pyDelIdx lines (todo.line_number - 1) with
          | none => (false, fs)
          | some newLines =>
            (true, fsWrite fs todo.filepath ⟨String.join newLines, f.ctime, f.mtime⟩)
        else (false, fs)
    else (false, fs)

/-! ### Helper lemmas -/

theorem fsExists_fsRemove (fs : FS) (p : String) : fsExists (fsRemove fs p) p = false := by
  unfold fsExists fsRead fsRemove
  rw [List.find?_eq_none.mpr]
  · rfl
  · intro x hx
    have := (List.mem_filter.mp hx).2
    simpa using this

theorem collapseWsAux_chars (l : List Char) :
    ∀ b, ∀ c ∈ collapseWsAux b l, c = '_' ∨ (c ∈ l ∧ pyIsSpace c = false) := by
  induction l with
  | nil => intro b c hc; simp [collapseWsAux] at hc
  | cons a rest ih =>
    intro b c hc
    rw [collapseWsAux] at hc
    by_cases hsp : pyIsSpace a
    · rw [if_pos hsp] at hc
      have step : c ∈ collapseWsAux true rest → c = '_' ∨ (c ∈ a :: rest ∧ pyIsSpace c = false) := by
        intro h1
        rcases ih true c h1 with h2 | h2
        · exact Or.inl h2
        · exact Or.inr ⟨List.mem_cons_of_mem _ h2.1, h2.2⟩
      cases b
      · simp only [Bool.false_eq_true, if_false] at hc
        rcases List.mem_cons.mp hc with h1 | h1
        · exact Or.inl h1
        · exact step h1
      · simp only [if_true] at hc
        exact step hc
    · rw [if_neg hsp] at hc
      rcases List.mem_cons.mp hc with h1 | h1
      · subst h1
        exact Or.inr ⟨List.mem_cons_self _ _, by simpa using hsp⟩
      · rcases ih false c h1 with h2 | h2
        · exact Or.inl h2
        · exact Or.inr ⟨List.mem_cons_of_mem _ h2.1, h2.2⟩

theorem collapseWs_chars (l : List Char) :
    ∀ c ∈ collapseWs l, c = '_' ∨ (c ∈ l ∧ pyIsSpace c = false) :=
  collapseWsAux_chars l false

/-! ### Claims -/

/-- C8.  delete_note unlinks the backing file and reports true exactly
    when the file exists; a failure (including a second delete of the
    same, already removed, note) reports false without raising and leaves
    the filesystem unchanged; after a successful delete the path is gone,
    so the repeated call always reports false. -/
theorem delete_note_spec (fs : FS) (n : PyNote) :
    ((delete_note fs n).1 = fsExists fs n.filepath)
    ∧ (fsExists fs n.filepath = true →
        fsExists (delete_note fs n).2 n.filepath = false)
    ∧ (fsExists fs n.filepath = false → (delete_note fs n).2 = fs)
    ∧ ((delete_note (delete_note fs n).2 n).1 = false) := by
  unfold delete_note
  by_cases h : fsExists fs n.filepath
  · simp [h, fsExists_fsRemove]
  · simp only [Bool.not_eq_true] at h
    simp [h]

/-- Witness for C8 at a concrete filesystem: the delete succeeds, the
    second delete fails. -/
theorem delete_note_spec_witness :
    (delete_note [("notes/standalone/a.md", ⟨"x", "c", "m"⟩)]
        { filepath := "notes/standalone/a.md", title := .s "a",
          created_at := "c", updated_at := "m" }).1 = true
    ∧ (delete_note
        (delete_note [("notes/standalone/a.md", ⟨"x", "c", "m"⟩)]
          { filepath := "notes/standalone/a.md", title := .s "a",
            created_at := "c", updated_at := "m" }).2
        { filepath := "notes/standalone/a.md", title := .s "a",
          created_at := "c", updated_at := "m" }).1 = false := by
  have h := delete_note_spec [("notes/standalone/a.md", ⟨"x", "c", "m"⟩)]
    { filepath := "notes/standalone/a.md", title := .s "a",
      created_at := "c", updated_at := "m" }
  exact ⟨h.1.trans (by rfl), h.2.2.2⟩

/-- C9.  The event-note filename is the date, the HHMM time or the
    all-day marker, and the sanitised title, joined by underscores with
    the markdown extension; the sanitised title is at most 100 characters
    and consists only of word characters and hyphens. -/
theorem event_filename_spec (e : CalendarEvent) :
    generate_event_filename e
      = e.start_date.dateStr ++ "_"
        ++ (if e.is_all_day then "allday" else e.start_date.hhmm) ++ "_"
        ++ sanitize_filename e.title ++ ".md"
    ∧ (sanitize_filename e.title).data.length ≤ 100
    ∧ (∀ c ∈ (sanitize_filename e.title).data, (pyIsWord c || c = '-') = true) := by
  refine ⟨?_, ?_, ?_⟩
  · unfold generate_event_filename
    by_cases h : e.is_all_day <;> simp [h]
  · unfold sanitize_filename
    simp
  · intro c hc
    unfold sanitize_filename at hc
    have hc2 := List.mem_of_mem_take hc
    rcases collapseWs_chars _ c hc2 with h | ⟨h1, h2⟩
    · subst h
      rfl
    · have := (List.mem_filter.mp h1).2
      simp only [Bool.or_eq_true, decide_eq_true_eq] at this
      rcases this with (hw | hs) | hd
      · simp [hw]
      · rw [hs] at h2; cases h2
      · subst hd; decide

/-- Witness for C9 at a concrete event. -/
theorem event_filename_spec_witness :
    generate_event_filename
        ⟨"e1", "Team Meeting: Q4!", ⟨2024, 1, 15, 9, 30, 0⟩, ⟨2024, 1, 15, 10, 0, 0⟩,
          "Work", none, none, false⟩
      = "2024-01-15_0930_Team_Meeting_Q4.md" := by
  have h := event_filename_spec
    ⟨"e1", "Team Meeting: Q4!", ⟨2024, 1, 15, 9, 30, 0⟩, ⟨2024, 1, 15, 10, 0, 0⟩,
      "Work", none, none, false⟩
  exact h.1.trans (by decide)

/-- C1.  For a TodoItem with its documented 1-based line number:
    completion succeeds exactly when the file can be read, the line
    number is within the re-read line count, and the stripped current
    line equals the stripped captured line; on success the file is
    rewritten with exactly that line deleted; on a failed read or any
    failed check the filesystem is left unmodified. -/
theorem complete_todo_spec (fs : FS) (t : TodoItem) (h1 : 1 ≤ t.line_number) :
    (∀ f, fsRead fs t.filepath = some f →
      (((complete_todo fs t).1 = true ↔
          (t.line_number ≤ ((pyReadLines f.content).length : Int)
            ∧ ∃ cur, (pyReadLines f.content).get? (t.line_number.toNat - 1) = some cur
                ∧ pyStrip cur = pyStrip t.full_line))
        ∧ ((complete_todo fs t).1 = true →
            (complete_todo fs t).2
              = fsWrite fs t.filepath
                  ⟨String.join ((pyReadLines f.content).eraseIdx (t.line_number.toNat - 1)),
                   f.ctime, f.mtime⟩)))
    ∧ (fsRead fs t.filepath = none → complete_todo fs t = (false, fs))
    ∧ ((complete_todo fs t).1 = false → (complete_todo fs t).2 = fs) := by
  obtain ⟨m, hm⟩ := Int.eq_ofNat_of_zero_le (le_trans zero_le_one h1)
  have hm1 : 1 ≤ m := by omega
  cases hf : fsRead fs t.filepath with
  | none =>
    have hc : complete_todo fs t = (false, fs) := by
      unfold complete_todo
      rw [hf]
    exact ⟨fun f' hf' => (by cases hf'), ⟨fun _ => hc, fun _ => (by rw [hc])⟩⟩
  | some f =>
    have hsome : ∀ f', some f = some f' → f' = f := by
      intro f' hf'
      cases hf'
      rfl
    set lines := pyReadLines f.content with hlines
    have hidx : pyIndex lines (t.line_number - 1) = lines.get? (m - 1) := by
      unfold pyIndex
      rw [if_pos (by omega)]
      congr 1
      omega
    have htn : t.line_number.toNat - 1 = m - 1 := by omega
    by_cases hb : t.line_number ≤ (lines.length : Int)
    · have hb2 : m ≤ lines.length := by omega
      cases hget : lines.get? (m - 1) with
      | none =>
        exfalso
        rw [List.get?_eq_none] at hget
        omega
      | some cur =>
        by_cases hstrip : pyStrip cur = pyStrip t.full_line
        · have hdel : pyDelIdx lines (t.line_number - 1) = some (lines.eraseIdx (m - 1)) := by
            unfold pyDelIdx
            rw [if_pos (by omega), if_pos (by omega)]
            congr 2
            omega
          have hc : complete_todo fs t
              = (true, fsWrite fs t.filepath
                  ⟨String.join (lines.eraseIdx (m - 1)), f.ctime, f.mtime⟩) := by
            unfold complete_todo
            rw [hf]
            simp only [← hlines, if_pos hb, hidx, hget, if_pos hstrip, hdel]
          refine ⟨fun f' hf' => ?_, ⟨fun habs => (by cases habs),
                  fun habs => (by rw [hc] at habs; simp at habs)⟩⟩
          cases hsome f' hf'
          rw [hc, htn]
          exact ⟨⟨fun _ => ⟨hb, cur, hget, hstrip⟩, fun _ => rfl⟩, fun _ => rfl⟩
        · have hc : complete_todo fs t = (false, fs) := by
            unfold complete_todo
            rw [hf]
            simp only [← hlines, if_pos hb, hidx, hget, if_neg hstrip]
          refine ⟨fun f' hf' => ?_, ⟨fun habs => (by cases habs),
                  fun _ => (by rw [hc])⟩⟩
          cases hsome f' hf'
          rw [hc, htn]
          refine ⟨⟨fun h => (by simp at h), fun h => ?_⟩, fun h => (by simp at h)⟩
          exfalso
          obtain ⟨_, cur2, hcur2, hst2⟩ := h
          rw [hget] at hcur2
          cases hcur2
          exact hstrip hst2
    · have hc : complete_todo fs t = (false, fs) := by
        unfold complete_todo
        rw [hf]
        simp only [← hlines, if_neg hb]
      refine ⟨fun f' hf' => ?_, ⟨fun habs => (by cases habs),
              fun _ => (by rw [hc])⟩⟩
      cases hsome f' hf'
      rw [hc]
      exact ⟨⟨fun h => (by simp at h), fun h => absurd h.1 hb⟩, fun h => (by simp at h)⟩

/-- Witness for C1: a concrete file where completion succeeds, removing
    exactly the matched line. -/
theorem complete_todo_spec_witness :
    (complete_todo [("notes/standalone/t.md", ⟨"a\nBuy milk #todo: x\nc\n", "c0", "m0"⟩)]
        ⟨"notes/standalone/t.md", 2, "x", "Buy milk #todo: x\n", .s "T"⟩).1 = true := by
  have h := complete_todo_spec
    [("notes/standalone/t.md", ⟨"a\nBuy milk #todo: x\nc\n", "c0", "m0"⟩)]
    ⟨"notes/standalone/t.md", 2, "x", "Buy milk #todo: x\n", .s "T"⟩ (by decide)
  refine ((h.1 ⟨"a\nBuy milk #todo: x\nc\n", "c0", "m0"⟩ (by rfl)).1).mpr ?_
  exact ⟨by decide, "Buy milk #todo: x\n", by rfl, by rfl⟩

/-! ### Lemmas about the todo scan -/

theorem todoLineItem_eq_some (p : String) (nt : Yaml) (n : Nat) (line : String)
    (it : TodoItem) (h : todoLineItem p nt n line = some it) :
    it.filepath = p ∧ it.line_number = (n : Int) ∧ it.full_line = line
      ∧ ∃ j, pyFind (pyLower line) "#todo" 0 = some j
          ∧ it.content = todoContentAfter line j := by
  unfold todoLineItem at h
  cases hj : pyFind (pyLower line) "#todo" 0 with
  | none => rw [hj] at h; cases h
  | some j =>
    rw [hj] at h
    cases h
    exact ⟨rfl, rfl, rfl, j, rfl, rfl⟩

theorem todoLineItem_eq_none (p : String) (nt : Yaml) (n : Nat) (line : String)
    (h : pyFind (pyLower line) "#todo" 0 = none) : todoLineItem p nt n line = none := by
  unfold todoLineItem
  rw [h]

theorem scanLines_cons (p : String) (nt : Yaml) (s : Nat) (l : String) (rest : List String) :
    scanLines p nt s (l :: rest)
      = (todoLineItem p nt s l).toList ++ scanLines p nt (s + 1) rest := by
  unfold scanLines
  rw [List.enumFrom_cons, List.filterMap_cons]
  cases h : todoLineItem p nt s l <;> simp [h]

theorem scanLines_ln_ge (p : String) (nt : Yaml) :
    ∀ (lines : List String) (s : Nat), ∀ it ∈ scanLines p nt s lines, (s : Int) ≤ it.line_number := by
  intro lines
  induction lines with
  | nil => intro s it hit; simp [scanLines, List.enumFrom] at hit
  | cons l rest ih =>
    intro s it hit
    rw [scanLines_cons] at hit
    rcases List.mem_append.mp hit with h1 | h1
    · cases h : todoLineItem p nt s l with
      | none => rw [h] at h1; cases h1
      | some it0 =>
        rw [h] at h1
        simp only [Option.toList_some, List.mem_singleton] at h1
        subst h1
        rw [(todoLineItem_eq_some p nt s l it h).2.1]
    · have := ih (s + 1) it h1
      omega

theorem scanLines_filter_eq (p : String) (nt : Yaml) :
    ∀ (lines : List String) (s k : Nat) (line : String), lines.get? k = some line →
      (scanLines p nt s lines).filter
          (fun it => decide (it.line_number = ((s + k : Nat) : Int)))
        = (todoLineItem p nt (s + k) line).toList := by
  intro lines
  induction lines with
  | nil => intro s k line h; cases h
  | cons l rest ih =>
    intro s k line h
    rw [scanLines_cons, List.filter_append]
    have htail0 : ∀ target : Int, target < (s + 1 : Nat) →
        (scanLines p nt (s + 1) rest).filter (fun it => decide (it.line_number = target)) = [] := by
      intro target ht
      apply List.filter_eq_nil_iff.mpr
      intro it hit
      have := scanLines_ln_ge p nt rest (s + 1) it hit
      simp only [decide_eq_true_eq]
      omega
    cases k with
    | zero =>
      simp only [List.get?_cons_zero] at h
      cases h
      have htail := htail0 ((s + 0 : Nat) : Int) (by omega)
      rw [htail, List.append_nil]
      cases hl : todoLineItem p nt s l with
      | none => simp [hl]
      | some it0 =>
        have hln := (todoLineItem_eq_some p nt s l it0 hl).2.1
        simp [hl, hln]
    | succ k0 =>
      simp only [List.get?_cons_succ] at h
      have hhead : ((todoLineItem p nt s l).toList).filter
          (fun it => decide (it.line_number = ((s + (k0 + 1) : Nat) : Int))) = [] := by
        cases hl : todoLineItem p nt s l with
        | none => simp
        | some it0 =>
          have hln := (todoLineItem_eq_some p nt s l it0 hl).2.1
          simp only [Option.toList_some, List.filter_cons, List.filter_nil]
          rw [if_neg]
          simp only [hln, decide_eq_true_eq]
          intro hc
          omega
      rw [hhead, List.nil_append]
      have := ih (s + 1) k0 line h
      have harith : ((s + 1) + k0 : Nat) = (s + (k0 + 1) : Nat) := by omega
      rw [harith] at this
      exact this

theorem scanLines_mem (p : String) (nt : Yaml) (lines : List String) (s k : Nat)
    (line : String) (h : lines.get? k = some line) (it : TodoItem)
    (hit : todoLineItem p nt (s + k) line = some it) : it ∈ scanLines p nt s lines := by
  have hf := scanLines_filter_eq p nt lines s k line h
  rw [hit] at hf
  have : it ∈ (scanLines p nt s lines).filter
      (fun it => decide (it.line_number = ((s + k : Nat) : Int))) := by
    rw [hf]; exact List.mem_singleton.mpr rfl
  exact (List.mem_filter.mp this).1

/-- The note title the todo scan records for a file. -/
def scanTitle (p : String) (f : Fil) (now : String) : Yaml :=
  match load_note p f now with
  | some n => n.title
  | none => .s (pathStem p)

theorem scanFileTodos_eq (p : String) (f : Fil) (now : String) :
    scanFileTodos p f now = scanLines p (scanTitle p f now) 1 (pyReadLines f.content) := rfl

/-- C7.  Every line of every scanned markdown file that contains the
    marker (found case-insensitively at index j) contributes a TodoItem
    whose line number is the line's 1-based position, whose full_line is
    the raw line, and whose content is the text after the marker,
    stripped, with one leading colon and its surrounding whitespace
    removed. -/
theorem todo_scan_spec (fs : FS) (now : String) (p : String) (f : Fil)
    (hmem : (p, f) ∈ fs) (hmd : isMdUnderNotes p = true)
    (i : Nat) (line : String) (hline : (pyReadLines f.content).get? i = some line)
    (j : Nat) (hj : pyFind (pyLower line) "#todo" 0 = some j) :
    ∃ it ∈ get_all_todos fs now,
      it.filepath = p ∧ it.line_number = ((i + 1 : Nat) : Int)
        ∧ it.content = todoContentAfter line j ∧ it.full_line = line := by
  have hli : todoLineItem p (scanTitle p f now) (1 + i) line
      = some ⟨p, ((1 + i : Nat) : Int), todoContentAfter line j, line, scanTitle p f now⟩ := by
    unfold todoLineItem
    rw [hj]
  have hmem2 := scanLines_mem p (scanTitle p f now) (pyReadLines f.content) 1 i line hline _ hli
  rw [← scanFileTodos_eq] at hmem2
  have hfs : (p, f) ∈ fs.filter (fun e => isMdUnderNotes e.1) :=
    List.mem_filter.mpr ⟨hmem, by simpa using hmd⟩
  refine ⟨⟨p, ((1 + i : Nat) : Int), todoContentAfter line j, line, scanTitle p f now⟩,
    ?_, rfl, ?_, rfl, rfl⟩
  · unfold get_all_todos
    exact List.mem_flatMap.mpr ⟨(p, f), hfs, hmem2⟩
  · show ((1 + i : Nat) : Int) = ((i + 1 : Nat) : Int)
    omega

/-- Witness for C7, instantiating the specification scenario: the line
    at 1-based position 5 reads Buy milk, marker, colon, and the item
    content is the colon-stripped remainder. -/
theorem todo_scan_spec_witness :
    (∃ it ∈ get_all_todos
          [("notes/standalone/t.md",
            ⟨"l1\nl2\nl3\nl4\nBuy milk #todo: remember the oat kind\n", "c0", "m0"⟩)]
          "2025-01-01T00:00:00",
        it.filepath = "notes/standalone/t.md" ∧ it.line_number = ((4 + 1 : Nat) : Int)
          ∧ it.content = todoContentAfter "Buy milk #todo: remember the oat kind\n" 9
          ∧ it.full_line = "Buy milk #todo: remember the oat kind\n")
    ∧ todoContentAfter "Buy milk #todo: remember the oat kind\n" 9 = "remember the oat kind" := by
  refine ⟨todo_scan_spec _ "2025-01-01T00:00:00" "notes/standalone/t.md"
    ⟨"l1\nl2\nl3\nl4\nBuy milk #todo: remember the oat kind\n", "c0", "m0"⟩
    (List.mem_singleton.mpr rfl) (by decide) 4 "Buy milk #todo: remember the oat kind\n"
    (by rfl) 9 (by rfl), by rfl⟩

/-- C10.  A line containing the marker (once or several times) yields
    exactly one TodoItem, whose content is computed from the first
    (leftmost, case-insensitive) occurrence; when nothing but whitespace
    follows the marker the item is still emitted, with empty content. -/
theorem todo_scan_per_line (p : String) (f : Fil) (now : String) (i : Nat) (line : String)
    (hline : (pyReadLines f.content).get? i = some line) :
    (∀ j, pyFind (pyLower line) "#todo" 0 = some j →
      ((scanFileTodos p f now).filter
          (fun it => decide (it.line_number = ((1 + i : Nat) : Int)))).length = 1
      ∧ (∀ it ∈ scanFileTodos p f now,
          it.line_number = ((1 + i : Nat) : Int) → it.content = todoContentAfter line j))
    ∧ (∀ j, pyFind (pyLower line) "#todo" 0 = some j →
        stripChars (line.data.drop (j + 5)) = [] →
        ∀ it ∈ scanFileTodos p f now,
          it.line_number = ((1 + i : Nat) : Int) → it.content = "") := by
  have hfilter := scanLines_filter_eq p (scanTitle p f now) (pyReadLines f.content) 1 i line hline
  rw [← scanFileTodos_eq] at hfilter
  have huniq : ∀ j, pyFind (pyLower line) "#todo" 0 = some j →
      ∀ it ∈ scanFileTodos p f now,
        it.line_number = ((1 + i : Nat) : Int) → it.content = todoContentAfter line j := by
    intro j hj it hit hln
    have hin : it ∈ (scanFileTodos p f now).filter
        (fun it => decide (it.line_number = ((1 + i : Nat) : Int))) :=
      List.mem_filter.mpr ⟨hit, by simp [hln]⟩
    rw [hfilter] at hin
    unfold todoLineItem at hin
    rw [hj] at hin
    simp only [Option.toList_some, List.mem_singleton] at hin
    rw [hin]
  refine ⟨fun j hj => ⟨?_, huniq j hj⟩, fun j hj hempty it hit hln => ?_⟩
  · rw [hfilter]
    unfold todoLineItem
    rw [hj]
    rfl
  · rw [huniq j hj it hit hln]
    unfold todoContentAfter
    rw [show pyStrip ⟨line.data.drop (j + 5)⟩ = "" from congrArg String.mk hempty]
    rfl

/-- Witness for C10: a line with two markers yields one item with the
    content from the first marker; a line where only the terminator
    follows the marker yields an item with empty content. -/
theorem todo_scan_per_line_witness :
    (((scanFileTodos "notes/standalone/u.md" ⟨"a #todo x #todo y\nend #todo\n", "c0", "m0"⟩
          "2025-01-01T00:00:00").filter
        (fun it => decide (it.line_number = ((1 + 0 : Nat) : Int)))).length = 1
      ∧ (∀ it ∈ scanFileTodos "notes/standalone/u.md"
            ⟨"a #todo x #todo y\nend #todo\n", "c0", "m0"⟩ "2025-01-01T00:00:00",
          it.line_number = ((1 + 0 : Nat) : Int) →
            it.content = todoContentAfter "a #todo x #todo y\n" 2))
    ∧ todoContentAfter "a #todo x #todo y\n" 2 = "x #todo y"
    ∧ (∀ it ∈ scanFileTodos "notes/standalone/u.md"
          ⟨"a #todo x #todo y\nend #todo\n", "c0", "m0"⟩ "2025-01-01T00:00:00",
        it.line_number = ((1 + 1 : Nat) : Int) → it.content = "") := by
  refine ⟨todo_scan_per_line "notes/standalone/u.md" _ _ 0 "a #todo x #todo y\n" (by rfl)
      |>.1 2 (by rfl), by rfl, ?_⟩
  exact (todo_scan_per_line "notes/standalone/u.md" _ _ 1 "end #todo\n" (by rfl)).2 4
    (by rfl) (by decide)

/-! ### Lemmas about search -/

theorem pyInStr_empty (s : String) : pyInStr "" s = true := by
  unfold pyInStr subFind
  cases h : s.data with
  | nil => rfl
  | cons c t => simp

theorem searchAux_empty_query (fs : FS) :
    ∀ l : List PyNote, (∀ n ∈ l, ∃ t, n.title = Yaml.s t) → searchAux fs "" l = some l := by
  intro l
  induction l with
  | nil => intro _; rfl
  | cons n rest ih =>
    intro h
    obtain ⟨t, ht⟩ := h n (List.mem_cons_self _ _)
    rw [searchAux, ht]
    simp [pyInStr_empty, ih (fun m hm => h m (List.mem_cons_of_mem _ hm))]

/-- The concrete one-note filesystem used by the C4 counterexample. -/
def fsOneNote : FS :=
  [("notes/standalone/a.md",
    ⟨"---\ncreated: '2024-01-01T00:00:00'\ntags: []\ntitle: Alpha\nupdated: '2024-01-01T00:00:00'\n---\nbody\n",
     "2023-01-01T00:00:00", "2023-01-02T00:00:00"⟩)]

/-- C4, counterexample.  In the exact-substring fallback mode (the
    approximate-matching library unavailable), a fuzzy search with the
    empty query does not return the empty sequence: on a one-note store
    it returns that note, because the ImportError fallback runs before
    the empty-query check and the empty string is a substring of every
    title. -/
theorem fuzzy_empty_query_fallback_counterexample :
    (fuzzy_search_notes none fsOneNote "2025-01-01T00:00:00" "" 40).map List.length = some 1
    ∧ fuzzy_search_notes none fsOneNote "2025-01-01T00:00:00" "" 40
        ≠ some ([] : List (PyNote × Int × Option String)) := by
  constructor
  · rfl
  · intro h
    have h1 : (some ([] : List (PyNote × Int × Option String))).map List.length = some 1 := by
      rw [← h]
      rfl
    simp at h1

/-- C4, amended.  With an empty query the approximate-matching mode
    returns the empty sequence; the fallback mode instead hands the empty
    query to the exact search, which matches every note whose title reads
    back as a string, each reported with score 100 and no snippet. -/
theorem fuzzy_empty_query_spec :
    (∀ (rf : RapidFuzz) (fs : FS) (now : String) (thr : Int),
        fuzzy_search_notes (some rf) fs now "" thr = some [])
    ∧ (∀ (fs : FS) (now : String) (thr : Int),
        (∀ n ∈ get_all_notes fs now, ∃ t, n.title = Yaml.s t) →
        fuzzy_search_notes none fs now "" thr
          = some ((get_all_notes fs now).map
              (fun n => (n, (100 : Int), (none : Option String))))) := by
  constructor
  · intro rf fs now thr
    rfl
  · intro fs now thr h
    show (search_notes fs now "").map _ = _
    unfold search_notes
    rw [show pyLower "" = "" from rfl, searchAux_empty_query fs _ h]
    rfl

/-- Witness for the amended C4: both modes at concrete inputs. -/
theorem fuzzy_empty_query_spec_witness :
    fuzzy_search_notes (some ⟨fun _ _ => 0, fun _ _ => 0⟩) fsOneNote
        "2025-01-01T00:00:00" "" 40 = some []
    ∧ fuzzy_search_notes none fsOneNote "2025-01-01T00:00:00" "" 40
        = some ((get_all_notes fsOneNote "2025-01-01T00:00:00").map
            (fun n => (n, (100 : Int), (none : Option String)))) := by
  constructor
  · exact fuzzy_empty_query_spec.1 ⟨fun _ _ => 0, fun _ _ => 0⟩ fsOneNote
      "2025-01-01T00:00:00" 40
  · refine fuzzy_empty_query_spec.2 fsOneNote "2025-01-01T00:00:00" 40 ?_
    intro n hn
    have hl : get_all_notes fsOneNote "2025-01-01T00:00:00"
        = [{ filepath := "notes/standalone/a.md", title := Yaml.s "Alpha",
             created_at := "2024-01-01T00:00:00", updated_at := "2024-01-01T00:00:00",
             event_id := none, event_title := none, event_date := none,
             tags := Yaml.seq [] }] := by rfl
    rw [hl] at hn
    rcases List.mem_singleton.mp hn with h
    rw [h]
    exact ⟨"Alpha", rfl⟩

/-! ### Lemmas about the stable descending sort -/

theorem pySortRevByKey_perm [LinearOrder β] (key : α → β) (l : List α) :
    List.Perm (pySortRevByKey key l) l :=
  List.perm_insertionSort _ l

theorem pySortRevByKey_sorted [LinearOrder β] (key : α → β) (l : List α) :
    List.Pairwise (fun a b => key b ≤ key a) (pySortRevByKey key l) := by
  haveI : IsTotal α (fun a b => key b ≤ key a) := ⟨fun a b => le_total (key b) (key a)⟩
  haveI : IsTrans α (fun a b => key b ≤ key a) := ⟨fun _ _ _ hab hbc => le_trans hbc hab⟩
  exact List.sorted_insertionSort _ l

theorem pySortRevByKey_filter_key [LinearOrder β] (key : α → β) (l : List α) (s : β) :
    (pySortRevByKey key l).filter (fun a => decide (key a = s))
      = l.filter (fun a => decide (key a = s)) := by
  set p : α → Bool := fun a => decide (key a = s) with hp
  have hmemp : ∀ a, p a = true → key a = s := by
    intro a ha
    rw [hp] at ha
    exact of_decide_eq_true ha
  have hc_pair : (l.filter p).Pairwise (fun a b => key b ≤ key a) := by
    refine List.pairwise_of_forall_mem_list ?_
    intro a ha b hb
    rw [hmemp a (List.mem_filter.mp ha).2, hmemp b (List.mem_filter.mp hb).2]
  have hsub0 : List.Sublist (l.filter p) (pySortRevByKey key l) :=
    List.sublist_insertionSort hc_pair (List.filter_sublist l)
  have hidem : (l.filter p).filter p = l.filter p :=
    List.filter_eq_self.mpr (fun a ha => (List.mem_filter.mp ha).2)
  have hsub : List.Sublist (l.filter p) ((pySortRevByKey key l).filter p) :=
    hidem ▸ hsub0.filter p
  have hperm : List.Perm ((pySortRevByKey key l).filter p) (l.filter p) :=
    (pySortRevByKey_perm key l).filter p
  exact (hsub.eq_of_length hperm.length_eq.symm).symm

/-! ### Lemmas about fuzzy scoring -/

theorem foldl_inv {β' α' : Type} (P : β' → Prop) (f : β' → α' → β')
    (h : ∀ b a, P b → P (f b a)) :
    ∀ (l : List α') (init : β'), P init → P (l.foldl f init) := by
  intro l
  induction l with
  | nil => intro init h0; exact h0
  | cons a rest ih => intro init h0; exact ih (f init a) (h init a h0)

theorem scoreLines_inv (pr : String → String → Int) (ql : String) (lines : List String)
    (init : Int × Option String) (h0 : 0 ≤ init.1 ∧ init.1 ≤ 100)
    (hb : ∀ a b, 0 ≤ pr a b ∧ pr a b ≤ 100) :
    0 ≤ (scoreLines pr ql lines init).1 ∧ (scoreLines pr ql lines init).1 ≤ 100 := by
  unfold scoreLines
  refine foldl_inv (fun x => 0 ≤ x.1 ∧ x.1 ≤ 100) _ ?_ _ init h0
  intro acc i hacc
  dsimp only
  split
  · exact hacc
  · split
    · exact hb ql _
    · exact hacc

theorem scoreNote_bound (rf : RapidFuzz) (fs : FS) (ql : String) (n : PyNote)
    (sc : Int × Option String) (hsc : scoreNote rf fs ql n = some sc)
    (hpr : ∀ a b, 0 ≤ rf.partialScore a b ∧ rf.partialScore a b ≤ 100)
    (htok : ∀ a b, 0 ≤ rf.tokenSetScore a b ∧ rf.tokenSetScore a b ≤ 100) :
    0 ≤ sc.1 ∧ sc.1 ≤ 100 := by
  unfold scoreNote at hsc
  cases ht : n.title with
  | s t =>
    rw [ht] at hsc
    cases hsc
    dsimp only
    have h1 : 0 ≤ (if (0 : Int) < rf.partialScore ql (pyLower t)
          then (rf.partialScore ql (pyLower t), (none : Option String)) else ((0 : Int), none)).1
        ∧ (if (0 : Int) < rf.partialScore ql (pyLower t)
          then (rf.partialScore ql (pyLower t), (none : Option String)) else ((0 : Int), none)).1
          ≤ 100 := by
      split
      · exact hpr ql _
      · exact ⟨le_refl 0, by norm_num⟩
    have h2 : ∀ b1 : Int × Option String, 0 ≤ b1.1 ∧ b1.1 ≤ 100 →
        0 ≤ (if b1.1 < rf.tokenSetScore ql (pyLower t)
            then (rf.tokenSetScore ql (pyLower t), (none : Option String)) else b1).1
        ∧ (if b1.1 < rf.tokenSetScore ql (pyLower t)
            then (rf.tokenSetScore ql (pyLower t), (none : Option String)) else b1).1 ≤ 100 := by
      intro b1 hb1
      split
      · exact htok ql _
      · exact hb1
    have h3 := h2 _ h1
    cases hread : fsRead fs n.filepath with
    | none => exact h3
    | some f => exact scoreLines_inv _ ql _ _ h3 hpr
  | null => rw [ht] at hsc; cases hsc
  | b v => rw [ht] at hsc; cases hsc
  | seq l => rw [ht] at hsc; cases hsc
  | map l => rw [ht] at hsc; cases hsc

theorem fuzzyCollect_spec (rf : RapidFuzz) (fs : FS) (ql : String) (thr : Int)
    (hpr : ∀ a b, 0 ≤ rf.partialScore a b ∧ rf.partialScore a b ≤ 100)
    (htok : ∀ a b, 0 ≤ rf.tokenSetScore a b ∧ rf.tokenSetScore a b ≤ 100) :
    ∀ (notes : List PyNote) (base : List (PyNote × Int × Option String)),
      fuzzyCollect rf fs ql thr notes = some base →
      (∀ r ∈ base, thr ≤ r.2.1 ∧ 0 ≤ r.2.1 ∧ r.2.1 ≤ 100)
      ∧ List.Sublist (base.map (fun r => r.1)) notes := by
  intro notes
  induction notes with
  | nil =>
    intro base h
    cases h
    exact ⟨fun r hr => absurd hr (List.not_mem_nil r), List.Sublist.refl _⟩
  | cons n rest ih =>
    intro base h
    rw [fuzzyCollect] at h
    cases hsc : scoreNote rf fs ql n with
    | none => rw [hsc] at h; cases h
    | some sc =>
      rw [hsc] at h
      cases htail : fuzzyCollect rf fs ql thr rest with
      | none => rw [htail] at h; cases h
      | some tail =>
        rw [htail] at h
        cases h
        obtain ⟨hprops, hsub⟩ := ih tail htail
        have hbound := scoreNote_bound rf fs ql n sc hsc hpr htok
        split
        · rename_i hthr
          refine ⟨?_, ?_⟩
          · intro r hr
            rcases List.mem_cons.mp hr with h1 | h1
            · rw [h1]
              exact ⟨hthr, hbound⟩
            · exact hprops r h1
          · exact List.Sublist.cons₂ n hsub
        · exact ⟨hprops, hsub.cons n⟩

/-- C5.  For scorers within the 0..100 range (the rapidfuzz contract),
    every returned fuzzy result has a score between the threshold and
    100, the results are sorted by score non-increasing, and the results
    tied at any score value appear as a sublist of the underlying note
    listing, i.e. in its encounter order (stability). -/
theorem fuzzy_search_spec (rf : RapidFuzz) (fs : FS) (now q : String) (thr : Int)
    (hq : q ≠ "")
    (hpr : ∀ a b, 0 ≤ rf.partialScore a b ∧ rf.partialScore a b ≤ 100)
    (htok : ∀ a b, 0 ≤ rf.tokenSetScore a b ∧ rf.tokenSetScore a b ≤ 100)
    (out : List (PyNote × Int × Option String))
    (hout : fuzzy_search_notes (some rf) fs now q thr = some out) :
    (∀ r ∈ out, thr ≤ r.2.1 ∧ r.2.1 ≤ 100)
    ∧ List.Pairwise (fun a b => b.2.1 ≤ a.2.1) out
    ∧ ∀ s : Int, List.Sublist
        ((out.filter (fun r => decide (r.2.1 = s))).map (fun r => r.1))
        (get_all_notes fs now) := by
  have hne : q.isEmpty = false := by
    cases hq0 : q.isEmpty
    · rfl
    · exact absurd ((String.isEmpty_iff q).mp hq0) hq
  unfold fuzzy_search_notes at hout
  rw [hne] at hout
  dsimp only at hout
  rw [if_neg Bool.false_ne_true] at hout
  cases hcol : fuzzyCollect rf fs (pyLower q) thr (get_all_notes fs now) with
  | none => rw [hcol] at hout; cases hout
  | some base =>
    rw [hcol] at hout
    rw [Option.map_some'] at hout
    have hsort := Option.some.inj hout
    obtain ⟨hprops, hsub⟩ := fuzzyCollect_spec rf fs (pyLower q) thr hpr htok _ base hcol
    have hperm : List.Perm out base := by
      rw [← hsort]
      exact pySortRevByKey_perm _ base
    refine ⟨?_, ?_, ?_⟩
    · intro r hr
      have := hprops r (hperm.mem_iff.mp hr)
      exact ⟨this.1, this.2.2⟩
    · rw [← hsort]
      exact pySortRevByKey_sorted _ base
    · intro s
      have hstable : out.filter (fun r => decide (r.2.1 = s))
          = base.filter (fun r => decide (r.2.1 = s)) := by
        rw [← hsort]
        exact pySortRevByKey_filter_key (fun t => t.2.1) base s
      rw [hstable]
      exact List.Sublist.trans ((List.filter_sublist base).map _) hsub

/-- Witness for C5 at constant scorers over the one-note store. -/
theorem fuzzy_search_spec_witness :
    ∃ out, fuzzy_search_notes (some ⟨fun _ _ => 50, fun _ _ => 50⟩) fsOneNote
        "2025-01-01T00:00:00" "x" 0 = some out
      ∧ ((∀ r ∈ out, (0 : Int) ≤ r.2.1 ∧ r.2.1 ≤ 100)
          ∧ List.Pairwise (fun (a b : PyNote × Int × Option String) => b.2.1 ≤ a.2.1) out
          ∧ ∀ s : Int, List.Sublist
              ((out.filter (fun r => decide (r.2.1 = s))).map (fun r => r.1))
              (get_all_notes fsOneNote "2025-01-01T00:00:00")) := by
  refine ⟨_, rfl, fuzzy_search_spec ⟨fun _ _ => 50, fun _ _ => 50⟩ fsOneNote
    "2025-01-01T00:00:00" "x" 0 (by decide)
    (fun _ _ => ⟨by norm_num, by norm_num⟩) (fun _ _ => ⟨by norm_num, by norm_num⟩)
    _ rfl⟩

/-- C3, counterexample.  A block whose enclosed text parses as a plain
    YAML scalar is not a structured mapping, yet decoding returns that
    scalar rather than absent: _parse_frontmatter hands back whatever
    yaml.safe_load produced. -/
theorem parse_frontmatter_scalar_counterexample :
    parse_frontmatter "---\nhello\n--- rest" = some (Yaml.s "hello")
    ∧ (∀ m, Yaml.s "hello" ≠ Yaml.map m)
    ∧ parse_frontmatter "---\nhello\n--- rest" ≠ none := by
  refine ⟨by rfl, fun m h => (by cases h), ?_⟩
  intro h
  have h2 := h.symm.trans (by rfl : parse_frontmatter "---\nhello\n--- rest"
    = some (Yaml.s "hello"))
  cases h2

/-- C3, amended.  Decoding returns absent exactly when the text does not
    begin with the marker, no second occurrence of the marker exists at
    or after offset 3, or the enclosed text either fails to parse as
    YAML or parses as YAML null; a successfully parsed non-null value
    (mapping or not) is returned as is.  Decoding is a total function of
    the text, so it never raises. -/
theorem parse_frontmatter_spec (content : String) :
    parse_frontmatter content = none ↔
      (¬ ("---".data).isPrefixOf content.data
       ∨ subFind (content.data.drop 3) "---".data = none
       ∨ ∃ k, subFind (content.data.drop 3) "---".data = some k
           ∧ (ySafeLoad ⟨stripChars ((content.data.drop 3).take k)⟩ = none
              ∨ ySafeLoad ⟨stripChars ((content.data.drop 3).take k)⟩ = some Yaml.null)) := by
  unfold parse_frontmatter
  by_cases hpre : ("---".data).isPrefixOf content.data
  · rw [if_neg (not_not_intro hpre)]
    cases hfind : subFind (content.data.drop 3) "---".data with
    | none =>
      exact ⟨fun _ => Or.inr (Or.inl rfl), fun _ => rfl⟩
    | some k =>
      dsimp only
      cases hy : ySafeLoad ⟨stripChars ((content.data.drop 3).take k)⟩ with
      | none =>
        exact ⟨fun _ => Or.inr (Or.inr ⟨k, rfl, Or.inl hy⟩), fun _ => rfl⟩
      | some y =>
        cases y with
        | null =>
          exact ⟨fun _ => Or.inr (Or.inr ⟨k, rfl, Or.inr hy⟩), fun _ => rfl⟩
        | b v =>
          refine ⟨fun h => (by cases h), fun h => ?_⟩
          rcases h with h | h | ⟨k2, hk2, h2⟩
          · exact absurd hpre h
          · cases h
          · cases hk2
            rcases h2 with h2 | h2 <;> rw [hy] at h2 <;> cases h2
        | s t =>
          refine ⟨fun h => (by cases h), fun h => ?_⟩
          rcases h with h | h | ⟨k2, hk2, h2⟩
          · exact absurd hpre h
          · cases h
          · cases hk2
            rcases h2 with h2 | h2 <;> rw [hy] at h2 <;> cases h2
        | seq l =>
          refine ⟨fun h => (by cases h), fun h => ?_⟩
          rcases h with h | h | ⟨k2, hk2, h2⟩
          · exact absurd hpre h
          · cases h
          · cases hk2
            rcases h2 with h2 | h2 <;> rw [hy] at h2 <;> cases h2
        | map l =>
          refine ⟨fun h => (by cases h), fun h => ?_⟩
          rcases h with h | h | ⟨k2, hk2, h2⟩
          · exact absurd hpre h
          · cases h
          · cases hk2
            rcases h2 with h2 | h2 <;> rw [hy] at h2 <;> cases h2
  · rw [if_pos hpre]
    exact ⟨fun _ => Or.inl hpre, fun _ => rfl⟩

/-- Witness for the amended C3 at concrete inputs: text without the
    leading marker decodes to absent, text without a closing marker
    decodes to absent. -/
theorem parse_frontmatter_spec_witness :
    parse_frontmatter "no marker here" = none
    ∧ parse_frontmatter "---\ntitle: x" = none := by
  constructor
  · exact (parse_frontmatter_spec "no marker here").mpr (Or.inl (by decide))
  · exact (parse_frontmatter_spec "---\ntitle: x").mpr (Or.inr (Or.inl (by rfl)))

/-! ### Occurrences of the frontmatter marker

These lemmas locate the first occurrence of the three-dash marker in the
text the encoder produces, which is what lets _parse_frontmatter cut the
block at the right place. -/

/-- The text has no occurrence of the marker. -/
def noTriple (l : List Char) : Prop := subFind l "---".data = none

theorem subFind_cons_none {c : Char} {l p : List Char}
    (h : subFind (c :: l) p = none) : subFind l p = none := by
  rw [subFind] at h
  by_cases hp : p.isPrefixOf (c :: l)
  · rw [if_pos hp] at h
    cases h
  · rw [if_neg hp] at h
    exact Option.map_eq_none'.mp h

theorem noTriple_tail {c : Char} {l : List Char} (h : noTriple (c :: l)) : noTriple l :=
  subFind_cons_none h

theorem noTriple_cons {c : Char} {l : List Char} (hc : ¬ c = '-') (h : noTriple l) :
    noTriple (c :: l) := by
  have hpre : ¬ (("---".data).isPrefixOf (c :: l) = true) := by
    intro hp
    simp at hp
    exact hc hp.1.symm
  unfold noTriple
  rw [subFind, if_neg hpre, Option.map_eq_none']
  exact h

theorem noTriple_of_no_dash {l : List Char} (h : ∀ c ∈ l, ¬ c = '-') : noTriple l := by
  induction l with
  | nil => rfl
  | cons c rest ih =>
    exact noTriple_cons (h c (List.mem_cons_self _ _))
      (ih (fun d hd => h d (List.mem_cons_of_mem _ hd)))

theorem marker_not_prefix_append {c : Char} {a' : List Char}
    (hnt : noTriple (c :: a')) (hlast : ¬ (c :: a').getLast? = some '-') (b : List Char) :
    ¬ (("---".data).isPrefixOf (c :: (a' ++ b)) = true) := by
  intro hp
  simp only [String.data] at hp
  simp at hp
  obtain ⟨hc, hp2⟩ := hp
  cases a' with
  | nil =>
    apply hlast
    rw [← hc]
    rfl
  | cons d a'' =>
    obtain ⟨t, ht⟩ := hp2
    simp only [List.cons_append, List.append_eq] at ht
    have ht2 : '-' :: '-' :: t = d :: (a'' ++ b) := ht
    injection ht2 with h1 h2
    cases a'' with
    | nil =>
      apply hlast
      rw [← h1]
      rfl
    | cons e a3 =>
      injection h2 with h3 _
      have hpre0 : ("---".data).isPrefixOf (c :: d :: e :: a3) = true := by
        rw [← hc, ← h1, ← h3]
        simp
      unfold noTriple at hnt
      rw [subFind, if_pos hpre0] at hnt
      cases hnt

theorem marker_not_prefix_concat {d c : Char} {l' : List Char}
    (hnt : noTriple (d :: l')) (hc : ¬ c = '-') :
    ¬ (("---".data).isPrefixOf (d :: (l' ++ [c])) = true) := by
  intro hp
  simp at hp
  obtain ⟨hd, hp2⟩ := hp
  obtain ⟨t, ht⟩ := hp2
  have ht2 : '-' :: '-' :: t = l' ++ [c] := ht
  cases l' with
  | nil =>
    have := ht2
    simp at this
  | cons e l'' =>
    rw [List.cons_append] at ht2
    injection ht2 with h1 h2
    cases l'' with
    | nil =>
      simp at h2
      exact hc h2.1.symm
    | cons f l3 =>
      rw [List.cons_append] at h2
      injection h2 with h3 _
      have hpre0 : ("---".data).isPrefixOf (d :: e :: f :: l3) = true := by
        rw [← hd, ← h1, ← h3]
        simp
      unfold noTriple at hnt
      rw [subFind, if_pos hpre0] at hnt
      cases hnt

theorem noTriple_concat {l : List Char} {c : Char} (h : noTriple l) (hc : ¬ c = '-') :
    noTriple (l ++ [c]) := by
  induction l with
  | nil =>
    exact noTriple_of_no_dash (by intro d hd; rcases List.mem_singleton.mp hd with rfl; exact hc)
  | cons d l' ih =>
    have hpre := marker_not_prefix_concat h hc
    unfold noTriple
    rw [List.cons_append, subFind, if_neg hpre, Option.map_eq_none']
    exact ih (noTriple_tail h)

theorem getLast?_ne_tail {c : Char} {a' : List Char} (h : ¬ (c :: a').getLast? = some '-') :
    ¬ a'.getLast? = some '-' := by
  cases a' with
  | nil => simp
  | cons d a'' =>
    rw [List.getLast?_cons_cons] at h
    exact h

theorem subFind_append_of_noTriple :
    ∀ (a : List Char), noTriple a → ¬ a.getLast? = some '-' →
    ∀ b, subFind (a ++ b) "---".data = (subFind b "---".data).map (· + a.length) := by
  intro a
  induction a with
  | nil =>
    intro _ _ b
    rw [List.nil_append]
    cases subFind b "---".data <;> simp
  | cons c a' ih =>
    intro hnt hlast b
    have hpre := marker_not_prefix_append hnt hlast b
    rw [List.cons_append, subFind, if_neg hpre,
      ih (noTriple_tail hnt) (getLast?_ne_tail hlast) b]
    cases subFind b "---".data with
    | none => rfl
    | some k =>
      simp [Nat.add_assoc]

theorem noTriple_append {a b : List Char} (ha : noTriple a) (hlast : ¬ a.getLast? = some '-')
    (hb : noTriple b) : noTriple (a ++ b) := by
  unfold noTriple at hb ⊢
  rw [subFind_append_of_noTriple a ha hlast b, hb]
  rfl

theorem subFind_marker_loc {a : List Char} (ha : noTriple a) (hlast : ¬ a.getLast? = some '-')
    (rest : List Char) :
    subFind (a ++ ('-' :: '-' :: '-' :: rest)) "---".data = some a.length := by
  rw [subFind_append_of_noTriple a ha hlast]
  rw [subFind, if_pos (by simp)]
  simp

/-! ### Joining and re-splitting dumped lines -/

/-- The dumped lines joined with single newlines (no trailing one). -/
def joinNL : List (List Char) → List Char
  | [] => []
  | [l] => l
  | l :: L => l ++ '\n' :: joinNL L

theorem joinNL_cons_cons (l m : List Char) (L : List (List Char)) :
    joinNL (l :: m :: L) = l ++ '\n' :: joinNL (m :: L) := rfl

theorem linesText_eq_joinNL : ∀ L : List (List Char), L ≠ [] →
    linesText L = joinNL L ++ ['\n'] := by
  intro L
  induction L with
  | nil => intro h; exact absurd rfl h
  | cons l L' ih =>
    intro _
    cases L' with
    | nil => simp [linesText, joinNL]
    | cons m L'' =>
      rw [joinNL_cons_cons]
      have : linesText (l :: m :: L'') = (l ++ ['\n']) ++ linesText (m :: L'') := by
        simp [linesText]
      rw [this, ih (by simp)]
      simp

theorem joinNL_ne_nil : ∀ (L : List (List Char)) (l : List Char), l ≠ [] →
    joinNL (L ++ [l]) ≠ [] := by
  intro L
  induction L with
  | nil => intro l hl; simpa [joinNL] using hl
  | cons m L' ih =>
    intro l hl
    rw [List.cons_append]
    cases hL : L' ++ [l] with
    | nil => exact absurd hL (by simp)
    | cons x X =>
      rw [joinNL_cons_cons]
      simp

theorem getLast?_cons_of_ne_nil {a : Char} {t : List Char} (h : t ≠ []) :
    (a :: t).getLast? = t.getLast? := by
  cases t with
  | nil => exact absurd rfl h
  | cons y Y => exact List.getLast?_cons_cons

theorem joinNL_getLast? : ∀ (L : List (List Char)) (l : List Char), l ≠ [] →
    (joinNL (L ++ [l])).getLast? = l.getLast? := by
  intro L
  induction L with
  | nil => intro l _; rfl
  | cons m L' ih =>
    intro l hl
    rw [List.cons_append]
    cases hL : L' ++ [l] with
    | nil => exact absurd hL (by simp)
    | cons x X =>
      rw [joinNL_cons_cons]
      have hne : joinNL (x :: X) ≠ [] := by
        rw [← hL]
        exact joinNL_ne_nil L' l hl
      rw [List.getLast?_append, getLast?_cons_of_ne_nil hne, ← hL, ih l hl]
      cases hgl : l.getLast? with
      | none => exact absurd (List.getLast?_eq_none_iff.mp hgl) hl
      | some y => rfl

theorem joinNL_head? (l : List Char) (L : List (List Char)) (hne : l ≠ []) :
    (joinNL (l :: L)).head? = l.head? := by
  cases L with
  | nil => rfl
  | cons m L' =>
    rw [joinNL_cons_cons]
    cases l with
    | nil => exact absurd rfl hne
    | cons c t => rfl

theorem dropWhile_head_false {p : Char → Bool} {l : List Char} (x : Char)
    (hx : l.head? = some x) (hpx : p x = false) : l.dropWhile p = l := by
  cases l with
  | nil => cases hx
  | cons c t =>
    have : c = x := by
      injection hx
    rw [List.dropWhile_cons, this, hpx]
    simp

theorem stripChars_wrap (l : List Char) (hne : l ≠ [])
    (hh : ∀ c, l.head? = some c → pyIsSpace c = false)
    (hl : ∀ c, l.getLast? = some c → pyIsSpace c = false) :
    stripChars ('\n' :: (l ++ ['\n'])) = l := by
  obtain ⟨c, t, rfl⟩ := List.exists_cons_of_ne_nil hne
  unfold stripChars
  have h1 : List.dropWhile pyIsSpace ('\n' :: ((c :: t) ++ ['\n']))
      = List.dropWhile pyIsSpace ((c :: t) ++ ['\n']) := by
    rw [List.dropWhile_cons]
    simp [show pyIsSpace '\n' = true from rfl]
  have hc := hh c rfl
  have h2 : List.dropWhile pyIsSpace ((c :: t) ++ ['\n']) = (c :: t) ++ ['\n'] := by
    rw [List.cons_append, List.dropWhile_cons, hc]
    simp
  rw [h1, h2]
  rw [show ((c :: t) ++ ['\n']).reverse = '\n' :: (c :: t).reverse from by simp]
  rw [List.dropWhile_cons]
  simp only [show pyIsSpace '\n' = true from rfl, if_true]
  obtain ⟨d, hd⟩ : ∃ d, (c :: t).getLast? = some d := by
    cases hg : (c :: t).getLast? with
    | none => exact absurd (List.getLast?_eq_none_iff.mp hg) (by simp)
    | some y => exact ⟨y, rfl⟩
  have hds := hl d hd
  have hrev : (c :: t).reverse.head? = some d := by
    rw [List.head?_reverse]
    exact hd
  rw [dropWhile_head_false d hrev hds]
  simp

theorem splitNLAux_no_nl : ∀ (l acc : List Char), '\n' ∉ l →
    splitNLAux acc l = [acc.reverse ++ l] := by
  intro l
  induction l with
  | nil => intro acc _; simp [splitNLAux]
  | cons c t ih =>
    intro acc h
    rw [splitNLAux, if_neg (fun hc => h (List.mem_cons.mpr (Or.inl hc.symm)))]
    rw [ih (c :: acc) (fun hm => h (List.mem_cons_of_mem _ hm))]
    simp

theorem splitNLAux_append_nl : ∀ (l acc rest : List Char), '\n' ∉ l →
    splitNLAux acc (l ++ '\n' :: rest) = (acc.reverse ++ l) :: splitNLAux [] rest := by
  intro l
  induction l with
  | nil =>
    intro acc rest _
    rw [List.nil_append, splitNLAux, if_pos rfl]
    simp
  | cons c t ih =>
    intro acc rest h
    rw [List.cons_append, splitNLAux, if_neg (fun hc => h (List.mem_cons.mpr (Or.inl hc.symm)))]
    rw [ih (c :: acc) rest (fun hm => h (List.mem_cons_of_mem _ hm))]
    simp

theorem splitNL_joinNL : ∀ L : List (List Char), L ≠ [] → (∀ l ∈ L, '\n' ∉ l) →
    splitNL (joinNL L) = L := by
  intro L
  induction L with
  | nil => intro h _; exact absurd rfl h
  | cons l L' ih =>
    intro _ hno
    cases L' with
    | nil =>
      show splitNLAux [] l = [l]
      rw [splitNLAux_no_nl l [] (hno l (List.mem_cons_self _ _))]
      simp
    | cons m L'' =>
      rw [joinNL_cons_cons]
      show splitNLAux [] (l ++ '\n' :: joinNL (m :: L'')) = l :: m :: L''
      rw [splitNLAux_append_nl l [] _ (hno l (List.mem_cons_self _ _))]
      have := ih (by simp) (fun x hx => hno x (List.mem_cons_of_mem _ hx))
      rw [show splitNLAux [] (joinNL (m :: L'')) = splitNL (joinNL (m :: L'')) from rfl, this]
      simp

/-! ### Round-trippable scalars

scalarOk carves out the values the codec round-trips: no occurrence of
the marker (a marker inside a dumped value cuts the block short at that
point, see the counterexample) and no newline (a newline would need
yaml.dump's escaped double-quoted style, outside the single-line subset
this program's data exercises).  Nothing else is excluded: every other
string is either dumped plain and read back verbatim, or single-quoted
by the emitter and unquoted again by the loader. -/

/-- A value the codec round-trips: marker-free and newline-free. -/
def scalarOk (s : String) : Bool :=
  decide (subFind s.data "---".data = none) && s.data.all (fun c => ¬ c = '\n')

theorem scalarOk_spec {s : String} (h : scalarOk s = true) :
    noTriple s.data ∧ '\n' ∉ s.data := by
  unfold scalarOk at h
  simp only [Bool.and_eq_true, decide_eq_true_eq, List.all_eq_true] at h
  refine ⟨h.1, fun hm => ?_⟩
  have h2 := h.2 '\n' hm
  simp at h2

/-- What a no-quote dump decision says about the string. -/
theorem needsQuote_false {s : String} (h : needsQuote s = false) :
    s.data ≠ []
    ∧ ¬ s ∈ yamlSpecialWords
    ∧ ¬ s = "[]"
    ∧ (∀ c, s.data.head? = some c → pyIsSpace c = false)
    ∧ (∀ c, s.data.getLast? = some c → pyIsSpace c = false)
    ∧ ¬ (2 ≤ s.data.length ∧ s.data.head? = some sq ∧ s.data.getLast? = some sq) := by
  unfold needsQuote at h
  simp only [Bool.or_eq_false_iff] at h
  obtain ⟨⟨⟨⟨⟨⟨⟨h1, h2⟩, h3⟩, h4⟩, h5⟩, h6⟩, h7⟩, h8⟩ := h
  refine ⟨?_, ?_, ?_, ?_, ?_, ?_⟩
  · intro h0
    rw [h0] at h1
    exact Bool.noConfusion h1
  · intro hm
    have hc : yamlSpecialWords.contains s = true := by simpa using hm
    rw [hc] at h2
    exact Bool.noConfusion h2
  · exact of_decide_eq_false h5
  · intro c hc
    rw [hc] at h6
    exact h6
  · intro c hc
    rw [hc] at h7
    exact h7
  · intro hx
    rw [decide_eq_true hx.1, decide_eq_true hx.2.1, decide_eq_true hx.2.2] at h8
    exact Bool.noConfusion h8

theorem stripChars_id {l : List Char}
    (hh : ∀ c, l.head? = some c → pyIsSpace c = false)
    (hl : ∀ c, l.getLast? = some c → pyIsSpace c = false) : stripChars l = l := by
  cases l with
  | nil => rfl
  | cons c t =>
    have h1 : List.dropWhile pyIsSpace (c :: t) = c :: t :=
      dropWhile_head_false c rfl (hh c rfl)
    obtain ⟨d, hd⟩ : ∃ d, (c :: t).getLast? = some d := by
      cases hg : (c :: t).getLast? with
      | none => exact absurd (List.getLast?_eq_none_iff.mp hg) (by simp)
      | some y => exact ⟨y, rfl⟩
    have hrev : (c :: t).reverse.head? = some d := by
      rw [List.head?_reverse]
      exact hd
    have h2 : List.dropWhile pyIsSpace (c :: t).reverse = (c :: t).reverse :=
      dropWhile_head_false d hrev (hl d hd)
    unfold stripChars
    rw [h1, h2]
    simp

theorem dumpScalar_p {v : String} (h : needsQuote v = false) : dumpScalar v = v := by
  unfold dumpScalar
  rw [if_neg (by simp [h])]

theorem dumpScalar_q {v : String} (h : needsQuote v = true) :
    dumpScalar v = ⟨sq :: (v.data ++ [sq])⟩ := by
  unfold dumpScalar
  rw [if_pos h]

theorem parseScalar_quoted (s : String) : parseScalar (sq :: (s.data ++ [sq])) = .s s := by
  have hsqns : pyIsSpace sq = false := by decide
  have hstrip : stripChars (sq :: (s.data ++ [sq])) = sq :: (s.data ++ [sq]) := by
    refine stripChars_id ?_ ?_
    · intro c hc
      injection hc with hc
      rw [← hc]
      exact hsqns
    · intro c hc
      rw [show (sq :: (s.data ++ [sq])) = ((sq :: s.data) ++ [sq]) from by simp,
        List.getLast?_concat] at hc
      injection hc with hc
      rw [← hc]
      exact hsqns
  unfold parseScalar
  rw [hstrip]
  rw [if_neg (by simp)]
  rw [if_pos]
  · show Yaml.s ⟨((sq :: (s.data ++ [sq])).drop 1).dropLast⟩ = Yaml.s s
    congr 1
    show (⟨(s.data ++ [sq]).dropLast⟩ : String) = s
    rw [List.dropLast_concat]
  · refine ⟨by simp, rfl, ?_⟩
    rw [show (sq :: (s.data ++ [sq])) = ((sq :: s.data) ++ [sq]) from by simp,
      List.getLast?_concat]

theorem not_mem_append_split {a b : List String} {s : String}
    (h : ¬ s ∈ a ++ b) : ¬ s ∈ a ∧ ¬ s ∈ b :=
  ⟨fun hc => h (List.mem_append_left _ hc), fun hc => h (List.mem_append_right _ hc)⟩

theorem contains_false_of_not_mem {L : List String} {s : String} (h : ¬ s ∈ L) :
    L.contains s = false := by
  cases hc : L.contains s
  · rfl
  · exact absurd (by simpa using hc : s ∈ L) h

theorem mem_of_getLast?' : ∀ {l : List Char} {a : Char}, l.getLast? = some a → a ∈ l := by
  intro l
  induction l with
  | nil => intro a h; cases h
  | cons c t ih =>
    intro a h
    cases t with
    | nil =>
      injection h with h
      rw [← h]
      exact List.getLast_mem _
    | cons e t2 =>
      rw [List.getLast?_cons_cons] at h
      exact List.mem_cons_of_mem _ (ih h)

theorem parseScalar_plain {v : String} (hq : needsQuote v = false) :
    parseScalar v.data = .s v := by
  obtain ⟨hne, hsw, hnb, hh, hl, hnq⟩ := needsQuote_false hq
  have hstrip : stripChars v.data = v.data := stripChars_id hh hl
  obtain ⟨hs1, hs23⟩ := not_mem_append_split
    (show ¬ v ∈ yamlNullWords ++ (yamlTrueWords ++ yamlFalseWords) from by
      intro hx
      apply hsw
      unfold yamlSpecialWords
      rw [List.append_assoc]
      exact hx)
  obtain ⟨hs2, hs3⟩ := not_mem_append_split hs23
  have heta : (⟨v.data⟩ : String) = v := rfl
  unfold parseScalar
  rw [hstrip]
  rw [if_neg (by simpa [List.isEmpty_iff] using hne)]
  rw [if_neg hnq]
  rw [heta]
  rw [if_neg (by rw [contains_false_of_not_mem hs1]; exact Bool.false_ne_true),
    if_neg (by rw [contains_false_of_not_mem hs2]; exact Bool.false_ne_true),
    if_neg (by rw [contains_false_of_not_mem hs3]; exact Bool.false_ne_true),
    if_neg hnb]

/-- Every scalar value parses back from its dumped form: the plain form
    by plain-scalar resolution, the quoted form by unquoting. -/
theorem parseScalar_dump (v : String) :
    parseScalar (dumpScalar v).data = Yaml.s v := by
  cases hq : needsQuote v with
  | true =>
    rw [dumpScalar_q hq]
    exact parseScalar_quoted v
  | false =>
    rw [dumpScalar_p hq]
    exact parseScalar_plain hq

/-! ### Splitting the dumped mapping lines -/

theorem takeWhile_append_stop {α : Type} {p : α → Bool} :
    ∀ (a b : List α), (∀ c ∈ a, p c = true) → (∀ c, b.head? = some c → p c = false) →
    (a ++ b).takeWhile p = a ∧ (a ++ b).dropWhile p = b := by
  intro a
  induction a with
  | nil =>
    intro b _ hb
    cases b with
    | nil => exact ⟨rfl, rfl⟩
    | cons c t =>
      rw [List.nil_append, List.takeWhile_cons, List.dropWhile_cons, hb c rfl]
      exact ⟨rfl, rfl⟩
  | cons x a' ih =>
    intro b ha hb
    have hx := ha x (List.mem_cons_self _ _)
    obtain ⟨h1, h2⟩ := ih b (fun c hc => ha c (List.mem_cons_of_mem _ hc)) hb
    rw [List.cons_append, List.takeWhile_cons, List.dropWhile_cons, hx]
    simp only [if_true]
    exact ⟨by rw [h1], by rw [h2]⟩

theorem splitKey_keyval (key : String) (v : List Char)
    (hk1 : key.data ≠ []) (hk2 : ∀ c ∈ key.data, ¬ c = ':') :
    splitKey (key.data ++ (':' :: ' ' :: v)) = some (key, some v) := by
  have hall : ∀ c ∈ key.data, (fun c => decide (¬ c = ':')) c = true :=
    fun c hc => by simpa using hk2 c hc
  have hstop : ∀ c, (':' :: ' ' :: v).head? = some c →
      (fun c => decide (¬ c = ':')) c = false := by
    intro c hc
    injection hc with hc
    rw [← hc]
    decide
  obtain ⟨ht, hd⟩ := takeWhile_append_stop key.data (':' :: ' ' :: v) hall hstop
  have hne : key.data.isEmpty = false := by
    simpa [List.isEmpty_iff] using hk1
  unfold splitKey
  rw [ht, hd]
  simp [hne]

theorem splitKey_keyonly (key : String)
    (hk1 : key.data ≠ []) (hk2 : ∀ c ∈ key.data, ¬ c = ':') :
    splitKey (key.data ++ [':']) = some (key, none) := by
  have hall : ∀ c ∈ key.data, (fun c => decide (¬ c = ':')) c = true :=
    fun c hc => by simpa using hk2 c hc
  have hstop : ∀ c, ([':'] : List Char).head? = some c →
      (fun c => decide (¬ c = ':')) c = false := by
    intro c hc
    injection hc with hc
    rw [← hc]
    decide
  obtain ⟨ht, hd⟩ := takeWhile_append_stop key.data [':'] hall hstop
  have hne : key.data.isEmpty = false := by
    simpa [List.isEmpty_iff] using hk1
  unfold splitKey
  rw [ht, hd]
  simp [hne]


/-! ### Step equations for the block-mapping parser -/

theorem data_append (a b : String) : (a ++ b).data = a.data ++ b.data := rfl

theorem parseMappingF_nil (fuel : Nat) : parseMappingF fuel [] = some [] := by
  cases fuel <;> rfl

theorem parseSubMap_nil : parseSubMap [] = some [] := rfl

theorem parseSubMap_cons (key : String) (v : List Char) (rest : List (List Char))
    (hk1 : key.data ≠ []) (hk2 : ∀ c ∈ key.data, ¬ c = ':') :
    parseSubMap ((key.data ++ (':' :: ' ' :: v)) :: rest)
      = (parseSubMap rest).map (fun m => (key, parseScalar v) :: m) := by
  rw [parseSubMap, splitKey_keyval key v hk1 hk2]

theorem parseMappingF_scalar (fuel : Nat) (key : String) (v : List Char)
    (lines : List (List Char))
    (hk1 : key.data ≠ []) (hk2 : ∀ c ∈ key.data, ¬ c = ':') :
    parseMappingF (fuel + 1) ((key.data ++ (':' :: ' ' :: v)) :: lines)
      = (parseMappingF fuel lines).map (fun m => (key, parseScalar v) :: m) := by
  rw [parseMappingF, splitKey_keyval key v hk1 hk2]

theorem parseMappingF_seq (fuel : Nat) (key : String) (i : List Char)
    (items lines : List (List Char))
    (hk1 : key.data ≠ []) (hk2 : ∀ c ∈ key.data, ¬ c = ':')
    (hall : ∀ x ∈ i :: items, isDashLine x = true)
    (hstop : ∀ x, lines.head? = some x → isDashLine x = false) :
    parseMappingF (fuel + 1) ((key.data ++ [':']) :: ((i :: items) ++ lines))
      = (parseMappingF fuel lines).map
          (fun m => (key,
            Yaml.seq ((i :: items).map (fun x => parseScalar (x.drop 2)))) :: m) := by
  obtain ⟨ht, hd⟩ := takeWhile_append_stop (i :: items) lines hall hstop
  have hi := hall i (List.mem_cons_self _ _)
  rw [parseMappingF, splitKey_keyonly key hk1 hk2]
  simp only [List.cons_append, List.head?_cons, hi, if_true]
  rw [List.cons_append] at ht hd
  rw [ht, hd]

theorem parseMappingF_submap (fuel : Nat) (key : String) (s0 : List Char)
    (sub lines : List (List Char)) (sm : List (String × Yaml))
    (hk1 : key.data ≠ []) (hk2 : ∀ c ∈ key.data, ¬ c = ':')
    (hall : ∀ x ∈ s0 :: sub, isIndented x = true)
    (hnd : isDashLine s0 = false)
    (hstop : ∀ x, lines.head? = some x → isIndented x = false)
    (hsm : parseSubMap ((s0 :: sub).map (fun x => x.drop 2)) = some sm) :
    parseMappingF (fuel + 1) ((key.data ++ [':']) :: ((s0 :: sub) ++ lines))
      = (parseMappingF fuel lines).map (fun m => (key, Yaml.map sm) :: m) := by
  have hstopD : ∀ x, lines.head? = some x → isIndented x = false := hstop
  obtain ⟨ht, hd⟩ := takeWhile_append_stop (s0 :: sub) lines hall hstopD
  have hi := hall s0 (List.mem_cons_self _ _)
  rw [parseMappingF, splitKey_keyonly key hk1 hk2]
  simp only [List.cons_append, List.head?_cons, hi, hnd, if_false, if_true,
    Bool.false_eq_true]
  rw [List.cons_append] at ht hd
  rw [ht, hd, hsm]


/-! ### Shapes of the dumped lines -/

theorem line_created (x : String) :
    ("created: " ++ x).data = "created".data ++ (':' :: ' ' :: x.data) := rfl

theorem line_title (x : String) :
    ("title: " ++ x).data = "title".data ++ (':' :: ' ' :: x.data) := rfl

theorem line_updated (x : String) :
    ("updated: " ++ x).data = "updated".data ++ (':' :: ' ' :: x.data) := rfl

theorem line_tags_empty : "tags: []".data = "tags".data ++ (':' :: ' ' :: "[]".data) := rfl

theorem line_tags_key : "tags:".data = "tags".data ++ [':'] := rfl

theorem line_event_key : "event:".data = "event".data ++ [':'] := rfl

theorem isDash_item (x : String) : isDashLine (("- " ++ x).data) = true := by
  unfold isDashLine
  rw [data_append]
  simp [List.isPrefixOf]

theorem drop2_item (x : String) : (("- " ++ x).data).drop 2 = x.data := rfl

theorem sub_all_day (x : String) :
    (("  all_day: " ++ x).data).drop 2 = "all_day".data ++ (':' :: ' ' :: x.data) := rfl

theorem sub_calendar (x : String) :
    (("  calendar: " ++ x).data).drop 2 = "calendar".data ++ (':' :: ' ' :: x.data) := rfl

theorem sub_date (x : String) :
    (("  date: " ++ x).data).drop 2 = "date".data ++ (':' :: ' ' :: x.data) := rfl

theorem sub_id (x : String) :
    (("  id: " ++ x).data).drop 2 = "id".data ++ (':' :: ' ' :: x.data) := rfl

theorem sub_location (x : String) :
    (("  location: " ++ x).data).drop 2 = "location".data ++ (':' :: ' ' :: x.data) := rfl

theorem sub_title (x : String) :
    (("  title: " ++ x).data).drop 2 = "title".data ++ (':' :: ' ' :: x.data) := rfl

theorem indented_all_day (x : String) : isIndented (("  all_day: " ++ x).data) = true := by
  unfold isIndented
  rw [data_append]
  simp [List.isPrefixOf]

theorem indented_calendar (x : String) : isIndented (("  calendar: " ++ x).data) = true := by
  unfold isIndented
  rw [data_append]
  simp [List.isPrefixOf]

theorem indented_date (x : String) : isIndented (("  date: " ++ x).data) = true := by
  unfold isIndented
  rw [data_append]
  simp [List.isPrefixOf]

theorem indented_id (x : String) : isIndented (("  id: " ++ x).data) = true := by
  unfold isIndented
  rw [data_append]
  simp [List.isPrefixOf]

theorem indented_location (x : String) : isIndented (("  location: " ++ x).data) = true := by
  unfold isIndented
  rw [data_append]
  simp [List.isPrefixOf]

theorem indented_title (x : String) : isIndented (("  title: " ++ x).data) = true := by
  unfold isIndented
  rw [data_append]
  simp [List.isPrefixOf]

theorem notDash_all_day (x : String) : isDashLine (("  all_day: " ++ x).data) = false := by
  unfold isDashLine
  rw [data_append]
  simp [List.isPrefixOf]

theorem notDash_title_line (x : String) : isDashLine (("title: " ++ x).data) = false := by
  unfold isDashLine
  rw [data_append]
  simp [List.isPrefixOf]

theorem notIndented_title_line (x : String) : isIndented (("title: " ++ x).data) = false := by
  unfold isIndented
  rw [data_append]
  simp [List.isPrefixOf]

theorem notDash_tags_empty : isDashLine ("tags: []".data) = false := by decide

theorem notIndented_tags_empty : isIndented ("tags: []".data) = false := by decide

theorem notDash_tags_key : isDashLine ("tags:".data) = false := by decide

theorem notIndented_tags_key : isIndented ("tags:".data) = false := by decide

/-! ### Constant scalars -/

theorem parseScalar_true : parseScalar ("true".data) = Yaml.b true := rfl

theorem parseScalar_false : parseScalar ("false".data) = Yaml.b false := rfl

theorem parseScalar_null_word : parseScalar ("null".data) = Yaml.null := rfl

theorem parseScalar_empty_flow : parseScalar ("[]".data) = Yaml.seq [] := rfl


/-! ### Per-line wellformedness of dumped lines -/

/-- A dumped line is marker-free, holds no newline, is nonempty and does
    not end in whitespace, so that joining lines with newlines and
    stripping and re-splitting the joined text is faithful. -/
def lineOk (l : List Char) : Prop :=
  noTriple l ∧ '\n' ∉ l ∧ l ≠ []
    ∧ ∀ c, l.getLast? = some c → pyIsSpace c = false

theorem marker_not_prefix_hb {c : Char} {a' b : List Char}
    (hnt : noTriple (c :: a')) (hb : ¬ b.head? = some '-') :
    ¬ (("---".data).isPrefixOf (c :: (a' ++ b)) = true) := by
  intro hp
  simp at hp
  obtain ⟨hc, hp2⟩ := hp
  obtain ⟨t, ht⟩ := hp2
  cases a' with
  | nil =>
    apply hb
    rw [List.nil_append] at ht
    rw [← ht]
    rfl
  | cons d a'' =>
    rw [List.cons_append] at ht
    have ht2 : '-' :: '-' :: t = d :: (a'' ++ b) := ht
    injection ht2 with h1 h2
    cases a'' with
    | nil =>
      apply hb
      rw [List.nil_append] at h2
      rw [← h2]
      rfl
    | cons e a3 =>
      rw [List.cons_append] at h2
      injection h2 with h3 _
      have hpre0 : ("---".data).isPrefixOf (c :: d :: e :: a3) = true := by
        rw [← hc, ← h1, ← h3]
        simp
      unfold noTriple at hnt
      rw [subFind, if_pos hpre0] at hnt
      cases hnt

/-- Marker-free lists stay marker-free when appended, provided the right
    part does not start with a dash (a marker cannot straddle the seam
    then, however many dashes the left part ends with). -/
theorem noTriple_append_head {a b : List Char} (ha : noTriple a)
    (hb : ¬ b.head? = some '-') (hbnt : noTriple b) : noTriple (a ++ b) := by
  induction a with
  | nil => exact hbnt
  | cons c a' ih =>
    have hpre := marker_not_prefix_hb ha hb
    unfold noTriple
    rw [List.cons_append, subFind, if_neg hpre, Option.map_eq_none']
    exact ih (noTriple_tail ha)

theorem getLast?_append_right {a b : List Char} (hb : b ≠ []) :
    (a ++ b).getLast? = b.getLast? := by
  rw [List.getLast?_append]
  cases hg : b.getLast? with
  | none => exact absurd (List.getLast?_eq_none_iff.mp hg) hb
  | some c => rfl

theorem noTriple_joinNL : ∀ L : List (List Char),
    (∀ l ∈ L, lineOk l) → noTriple (joinNL L) := by
  intro L
  induction L with
  | nil => intro _; exact (by decide : subFind [] "---".data = none)
  | cons l L2 ih =>
    intro h
    cases L2 with
    | nil => exact (h l (List.mem_cons_self _ _)).1
    | cons m L3 =>
      rw [joinNL_cons_cons]
      refine noTriple_append_head (h l (List.mem_cons_self _ _)).1 ?_ ?_
      · intro hx
        injection hx with hx
        exact absurd hx (by decide)
      · refine noTriple_cons (by decide) ?_
        exact ih (fun x hx => h x (List.mem_cons_of_mem _ hx))

theorem dump_props {v : String} (h : scalarOk v = true) :
    noTriple (dumpScalar v).data ∧ '\n' ∉ (dumpScalar v).data
      ∧ (dumpScalar v).data ≠ []
      ∧ ∀ c, (dumpScalar v).data.getLast? = some c → pyIsSpace c = false := by
  obtain ⟨hnt, hnl⟩ := scalarOk_spec h
  cases hq : needsQuote v with
  | true =>
    rw [dumpScalar_q hq]
    have hdata : (⟨sq :: (v.data ++ [sq])⟩ : String).data = sq :: (v.data ++ [sq]) := rfl
    rw [hdata]
    refine ⟨noTriple_cons (by decide) (noTriple_concat hnt (by decide)), ?_, by simp, ?_⟩
    · intro hm
      rcases List.mem_cons.mp hm with h1 | h2
      · exact absurd h1 (by decide)
      · rcases List.mem_append.mp h2 with h3 | h4
        · exact hnl h3
        · exact absurd (List.mem_singleton.mp h4) (by decide)
    · intro c hc
      rw [show sq :: (v.data ++ [sq]) = (sq :: v.data) ++ [sq] from by simp,
        List.getLast?_concat] at hc
      injection hc with hc
      rw [← hc]
      decide
  | false =>
    rw [dumpScalar_p hq]
    obtain ⟨hne, _, _, _, hl, _⟩ := needsQuote_false hq
    exact ⟨hnt, hnl, hne, hl⟩

theorem lineOk_pre {pre : String} {v : List Char}
    (hp1 : noTriple pre.data) (hp2 : ¬ pre.data.getLast? = some '-') (hp3 : '\n' ∉ pre.data)
    (hv1 : noTriple v) (hv3 : '\n' ∉ v) (hv4 : v ≠ [])
    (hv5 : ∀ c, v.getLast? = some c → pyIsSpace c = false) :
    lineOk (pre.data ++ v) := by
  refine ⟨noTriple_append hp1 hp2 hv1, ?_, ?_, ?_⟩
  · intro hm
    rcases List.mem_append.mp hm with h | h
    exacts [hp3 h, hv3 h]
  · intro h0
    rcases List.append_eq_nil.mp h0 with ⟨_, h2⟩
    exact hv4 h2
  · intro c hc
    rw [getLast?_append_right hv4] at hc
    exact hv5 c hc

theorem lineOk_pre_dump (pre : String) {v : String}
    (hp1 : noTriple pre.data) (hp2 : ¬ pre.data.getLast? = some '-') (hp3 : '\n' ∉ pre.data)
    (hv : scalarOk v = true) : lineOk (pre.data ++ (dumpScalar v).data) := by
  obtain ⟨h1, h2, h3, h4⟩ := dump_props hv
  exact lineOk_pre hp1 hp2 hp3 h1 h2 h3 h4


/-! ### Parsing the dumped values back -/

/-- Validity of the optional event metadata: every rendered field is a
    round-trippable scalar. -/
def evOk : Option EventMeta → Prop
  | none => True
  | some e => scalarOk e.id = true ∧ scalarOk e.title = true ∧ scalarOk e.date = true
      ∧ scalarOk e.calendar = true ∧ ∀ l, e.location = some l → scalarOk l = true

theorem parseSubMap_event (e : EventMeta) :
    parseSubMap
      ([("  all_day: " ++ (if e.all_day then "true" else "false")).data,
        ("  calendar: " ++ dumpScalar e.calendar).data,
        ("  date: " ++ dumpScalar e.date).data,
        ("  id: " ++ dumpScalar e.id).data,
        ("  location: " ++
          (match e.location with | none => "null" | some l => dumpScalar l)).data,
        ("  title: " ++ dumpScalar e.title).data].map (fun x => x.drop 2))
      = some [("all_day", Yaml.b e.all_day),
              ("calendar", Yaml.s e.calendar),
              ("date", Yaml.s e.date),
              ("id", Yaml.s e.id),
              ("location",
                match e.location with | none => Yaml.null | some l => Yaml.s l),
              ("title", Yaml.s e.title)] := by
  simp only [List.map_cons, List.map_nil, sub_all_day, sub_calendar, sub_date, sub_id,
    sub_location, sub_title]
  rw [parseSubMap_cons "all_day" _ _ (by decide) (by decide),
    parseSubMap_cons "calendar" _ _ (by decide) (by decide),
    parseSubMap_cons "date" _ _ (by decide) (by decide),
    parseSubMap_cons "id" _ _ (by decide) (by decide),
    parseSubMap_cons "location" _ _ (by decide) (by decide),
    parseSubMap_cons "title" _ _ (by decide) (by decide),
    parseSubMap_nil]
  simp only [Option.map_some']
  have h1 : parseScalar ((if e.all_day then "true" else "false") : String).data
      = Yaml.b e.all_day := by
    cases e.all_day
    · exact parseScalar_false
    · exact parseScalar_true
  have h2 : parseScalar
        ((match e.location with | none => "null" | some l => dumpScalar l) : String).data
      = (match e.location with | none => Yaml.null | some l => Yaml.s l) := by
    cases hl : e.location with
    | none => exact parseScalar_null_word
    | some l => exact parseScalar_dump l
  rw [h1, h2, parseScalar_dump e.calendar, parseScalar_dump e.date,
    parseScalar_dump e.id, parseScalar_dump e.title]

theorem fm_event_block (f : Nat) (e : EventMeta) (lines : List (List Char))
    (hstop : ∀ x, lines.head? = some x → isIndented x = false) :
    parseMappingF (f + 1)
      ("event:".data ::
        ("  all_day: " ++ (if e.all_day then "true" else "false")).data ::
        ("  calendar: " ++ dumpScalar e.calendar).data ::
        ("  date: " ++ dumpScalar e.date).data ::
        ("  id: " ++ dumpScalar e.id).data ::
        ("  location: " ++
          (match e.location with | none => "null" | some l => dumpScalar l)).data ::
        ("  title: " ++ dumpScalar e.title).data :: lines)
      = (parseMappingF f lines).map
          (fun m => ("event", Yaml.map
            [("all_day", Yaml.b e.all_day),
             ("calendar", Yaml.s e.calendar),
             ("date", Yaml.s e.date),
             ("id", Yaml.s e.id),
             ("location",
               match e.location with | none => Yaml.null | some l => Yaml.s l),
             ("title", Yaml.s e.title)]) :: m) := by
  have hall : ∀ x ∈ (("  all_day: " ++ (if e.all_day then "true" else "false")).data ::
      [("  calendar: " ++ dumpScalar e.calendar).data,
       ("  date: " ++ dumpScalar e.date).data,
       ("  id: " ++ dumpScalar e.id).data,
       ("  location: " ++
         (match e.location with | none => "null" | some l => dumpScalar l)).data,
       ("  title: " ++ dumpScalar e.title).data]), isIndented x = true := by
    intro x hx
    simp only [List.mem_cons, List.not_mem_nil, or_false] at hx
    rcases hx with rfl | rfl | rfl | rfl | rfl | rfl
    · exact indented_all_day _
    · exact indented_calendar _
    · exact indented_date _
    · exact indented_id _
    · exact indented_location _
    · exact indented_title _
  exact parseMappingF_submap f "event"
    (("  all_day: " ++ (if e.all_day then "true" else "false")).data)
    [("  calendar: " ++ dumpScalar e.calendar).data,
     ("  date: " ++ dumpScalar e.date).data,
     ("  id: " ++ dumpScalar e.id).data,
     ("  location: " ++
       (match e.location with | none => "null" | some l => dumpScalar l)).data,
     ("  title: " ++ dumpScalar e.title).data]
    lines _ (by decide) (by decide) hall (notDash_all_day _) hstop
    (parseSubMap_event e)

theorem fm_tags_block (f : Nat) (t : String) (ts : List String) (lines : List (List Char))
    (hstop : ∀ x, lines.head? = some x → isDashLine x = false) :
    parseMappingF (f + 1)
      ("tags:".data :: ((t :: ts).map (fun s => ("- " ++ dumpScalar s).data) ++ lines))
      = (parseMappingF f lines).map
          (fun m => ("tags", Yaml.seq ((t :: ts).map Yaml.s)) :: m) := by
  have hall : ∀ x ∈ ("- " ++ dumpScalar t).data ::
      ts.map (fun s => ("- " ++ dumpScalar s).data), isDashLine x = true := by
    intro x hx
    rcases List.mem_cons.mp hx with rfl | hx2
    · exact isDash_item _
    · obtain ⟨s, _, rfl⟩ := List.mem_map.mp hx2
      exact isDash_item _
  have hmap : ((("- " ++ dumpScalar t).data ::
        ts.map (fun s => ("- " ++ dumpScalar s).data)).map
      (fun x => parseScalar (x.drop 2))) = (t :: ts).map Yaml.s := by
    rw [show (("- " ++ dumpScalar t).data :: ts.map (fun s => ("- " ++ dumpScalar s).data))
        = (t :: ts).map (fun s => ("- " ++ dumpScalar s).data) from rfl,
      List.map_map]
    refine List.map_congr_left ?_
    intro a _
    show parseScalar ((("- " ++ dumpScalar a).data).drop 2) = Yaml.s a
    rw [drop2_item]
    exact parseScalar_dump a
  have h := parseMappingF_seq f "tags" (("- " ++ dumpScalar t).data)
      (ts.map (fun s => ("- " ++ dumpScalar s).data)) lines (by decide) (by decide)
      hall hstop
  rw [hmap] at h
  exact h


/-! ### The parsed form of a dumped frontmatter -/

/-- The mapping that the dumped frontmatter parses back to: each scalar
    comes back as itself, the tag list as a sequence, the event as a
    nested mapping. -/
def fmEntries (now title : String) (tags : List String) (ev : Option EventMeta) :
    List (String × Yaml) :=
  ("created", Yaml.s now)
    :: ((match ev with
        | none => []
        | some e =>
          [("event", Yaml.map
            [("all_day", Yaml.b e.all_day),
             ("calendar", Yaml.s e.calendar),
             ("date", Yaml.s e.date),
             ("id", Yaml.s e.id),
             ("location",
               match e.location with | none => Yaml.null | some l => Yaml.s l),
             ("title", Yaml.s e.title)])])
      ++ (("tags", Yaml.seq (tags.map Yaml.s))
          :: [("title", Yaml.s title), ("updated", Yaml.s now)]))

theorem fm_steps_none_nil (f : Nat) (now title : String) :
    parseMappingF (f + 4) (fmLines now title [] none)
      = some (fmEntries now title [] none) := by
  have h1 : parseMappingF (f + 4) (fmLines now title [] none)
      = (parseMappingF (f + 3)
          ["tags: []".data, ("title: " ++ dumpScalar title).data,
           ("updated: " ++ dumpScalar now).data]).map
        (fun m => ("created", parseScalar (dumpScalar now).data) :: m) :=
    parseMappingF_scalar (f + 3) "created" (dumpScalar now).data _ (by decide) (by decide)
  have h2 : parseMappingF (f + 3)
        ["tags: []".data, ("title: " ++ dumpScalar title).data,
         ("updated: " ++ dumpScalar now).data]
      = (parseMappingF (f + 2)
          [("title: " ++ dumpScalar title).data,
           ("updated: " ++ dumpScalar now).data]).map
        (fun m => ("tags", parseScalar ("[]".data)) :: m) :=
    parseMappingF_scalar (f + 2) "tags" ("[]".data) _ (by decide) (by decide)
  have h3 : parseMappingF (f + 2)
        [("title: " ++ dumpScalar title).data, ("updated: " ++ dumpScalar now).data]
      = (parseMappingF (f + 1) [("updated: " ++ dumpScalar now).data]).map
        (fun m => ("title", parseScalar (dumpScalar title).data) :: m) :=
    parseMappingF_scalar (f + 1) "title" (dumpScalar title).data _ (by decide) (by decide)
  have h4 : parseMappingF (f + 1) [("updated: " ++ dumpScalar now).data]
      = (parseMappingF f []).map
        (fun m => ("updated", parseScalar (dumpScalar now).data) :: m) :=
    parseMappingF_scalar f "updated" (dumpScalar now).data _ (by decide) (by decide)
  rw [h1, h2, h3, h4, parseMappingF_nil]
  simp only [Option.map_some', parseScalar_dump, parseScalar_empty_flow]
  rfl

theorem fm_steps_none_cons (f : Nat) (now title t : String) (ts : List String) :
    parseMappingF (f + 4) (fmLines now title (t :: ts) none)
      = some (fmEntries now title (t :: ts) none) := by
  have h1 : parseMappingF (f + 4) (fmLines now title (t :: ts) none)
      = (parseMappingF (f + 3)
          ("tags:".data :: ((t :: ts).map (fun s => ("- " ++ dumpScalar s).data)
            ++ [("title: " ++ dumpScalar title).data,
                ("updated: " ++ dumpScalar now).data]))).map
        (fun m => ("created", parseScalar (dumpScalar now).data) :: m) :=
    parseMappingF_scalar (f + 3) "created" (dumpScalar now).data _ (by decide) (by decide)
  have h2 : parseMappingF (f + 3)
        ("tags:".data :: ((t :: ts).map (fun s => ("- " ++ dumpScalar s).data)
          ++ [("title: " ++ dumpScalar title).data,
              ("updated: " ++ dumpScalar now).data]))
      = (parseMappingF (f + 2)
          [("title: " ++ dumpScalar title).data,
           ("updated: " ++ dumpScalar now).data]).map
        (fun m => ("tags", Yaml.seq ((t :: ts).map Yaml.s)) :: m) :=
    fm_tags_block (f + 2) t ts _
      (by
        intro x hx
        injection hx with hx
        rw [← hx]
        exact notDash_title_line _)
  have h3 : parseMappingF (f + 2)
        [("title: " ++ dumpScalar title).data, ("updated: " ++ dumpScalar now).data]
      = (parseMappingF (f + 1) [("updated: " ++ dumpScalar now).data]).map
        (fun m => ("title", parseScalar (dumpScalar title).data) :: m) :=
    parseMappingF_scalar (f + 1) "title" (dumpScalar title).data _ (by decide) (by decide)
  have h4 : parseMappingF (f + 1) [("updated: " ++ dumpScalar now).data]
      = (parseMappingF f []).map
        (fun m => ("updated", parseScalar (dumpScalar now).data) :: m) :=
    parseMappingF_scalar f "updated" (dumpScalar now).data _ (by decide) (by decide)
  rw [h1, h2, h3, h4, parseMappingF_nil]
  simp only [Option.map_some', parseScalar_dump]
  rfl

theorem fm_steps_some_nil (f : Nat) (now title : String) (e : EventMeta) :
    parseMappingF (f + 5) (fmLines now title [] (some e))
      = some (fmEntries now title [] (some e)) := by
  have h1 : parseMappingF (f + 5) (fmLines now title [] (some e))
      = (parseMappingF (f + 4)
          ("event:".data ::
            ("  all_day: " ++ (if e.all_day then "true" else "false")).data ::
            ("  calendar: " ++ dumpScalar e.calendar).data ::
            ("  date: " ++ dumpScalar e.date).data ::
            ("  id: " ++ dumpScalar e.id).data ::
            ("  location: " ++
              (match e.location with | none => "null" | some l => dumpScalar l)).data ::
            ("  title: " ++ dumpScalar e.title).data ::
            ["tags: []".data, ("title: " ++ dumpScalar title).data,
             ("updated: " ++ dumpScalar now).data])).map
        (fun m => ("created", parseScalar (dumpScalar now).data) :: m) :=
    parseMappingF_scalar (f + 4) "created" (dumpScalar now).data _ (by decide) (by decide)
  have h2 : parseMappingF (f + 4)
        ("event:".data ::
          ("  all_day: " ++ (if e.all_day then "true" else "false")).data ::
          ("  calendar: " ++ dumpScalar e.calendar).data ::
          ("  date: " ++ dumpScalar e.date).data ::
          ("  id: " ++ dumpScalar e.id).data ::
          ("  location: " ++
            (match e.location with | none => "null" | some l => dumpScalar l)).data ::
          ("  title: " ++ dumpScalar e.title).data ::
          ["tags: []".data, ("title: " ++ dumpScalar title).data,
           ("updated: " ++ dumpScalar now).data])
      = (parseMappingF (f + 3)
          ["tags: []".data, ("title: " ++ dumpScalar title).data,
           ("updated: " ++ dumpScalar now).data]).map
        (fun m => ("event", Yaml.map
          [("all_day", Yaml.b e.all_day),
           ("calendar", Yaml.s e.calendar),
           ("date", Yaml.s e.date),
           ("id", Yaml.s e.id),
           ("location",
             match e.location with | none => Yaml.null | some l => Yaml.s l),
           ("title", Yaml.s e.title)]) :: m) :=
    fm_event_block (f + 3) e _
      (by
        intro x hx
        injection hx with hx
        rw [← hx]
        exact notIndented_tags_empty)
  have h3 : parseMappingF (f + 3)
        ["tags: []".data, ("title: " ++ dumpScalar title).data,
         ("updated: " ++ dumpScalar now).data]
      = (parseMappingF (f + 2)
          [("title: " ++ dumpScalar title).data,
           ("updated: " ++ dumpScalar now).data]).map
        (fun m => ("tags", parseScalar ("[]".data)) :: m) :=
    parseMappingF_scalar (f + 2) "tags" ("[]".data) _ (by decide) (by decide)
  have h4 : parseMappingF (f + 2)
        [("title: " ++ dumpScalar title).data, ("updated: " ++ dumpScalar now).data]
      = (parseMappingF (f + 1) [("updated: " ++ dumpScalar now).data]).map
        (fun m => ("title", parseScalar (dumpScalar title).data) :: m) :=
    parseMappingF_scalar (f + 1) "title" (dumpScalar title).data _ (by decide) (by decide)
  have h5 : parseMappingF (f + 1) [("updated: " ++ dumpScalar now).data]
      = (parseMappingF f []).map
        (fun m => ("updated", parseScalar (dumpScalar now).data) :: m) :=
    parseMappingF_scalar f "updated" (dumpScalar now).data _ (by decide) (by decide)
  rw [h1, h2, h3, h4, h5, parseMappingF_nil]
  simp only [Option.map_some', parseScalar_dump, parseScalar_empty_flow]
  rfl

theorem fm_steps_some_cons (f : Nat) (now title t : String) (ts : List String)
    (e : EventMeta) :
    parseMappingF (f + 5) (fmLines now title (t :: ts) (some e))
      = some (fmEntries now title (t :: ts) (some e)) := by
  have h1 : parseMappingF (f + 5) (fmLines now title (t :: ts) (some e))
      = (parseMappingF (f + 4)
          ("event:".data ::
            ("  all_day: " ++ (if e.all_day then "true" else "false")).data ::
            ("  calendar: " ++ dumpScalar e.calendar).data ::
            ("  date: " ++ dumpScalar e.date).data ::
            ("  id: " ++ dumpScalar e.id).data ::
            ("  location: " ++
              (match e.location with | none => "null" | some l => dumpScalar l)).data ::
            ("  title: " ++ dumpScalar e.title).data ::
            ("tags:".data :: ((t :: ts).map (fun s => ("- " ++ dumpScalar s).data)
              ++ [("title: " ++ dumpScalar title).data,
                  ("updated: " ++ dumpScalar now).data])))).map
        (fun m => ("created", parseScalar (dumpScalar now).data) :: m) :=
    parseMappingF_scalar (f + 4) "created" (dumpScalar now).data _ (by decide) (by decide)
  have h2 : parseMappingF (f + 4)
        ("event:".data ::
          ("  all_day: " ++ (if e.all_day then "true" else "false")).data ::
          ("  calendar: " ++ dumpScalar e.calendar).data ::
          ("  date: " ++ dumpScalar e.date).data ::
          ("  id: " ++ dumpScalar e.id).data ::
          ("  location: " ++
            (match e.location with | none => "null" | some l => dumpScalar l)).data ::
          ("  title: " ++ dumpScalar e.title).data ::
          ("tags:".data :: ((t :: ts).map (fun s => ("- " ++ dumpScalar s).data)
            ++ [("title: " ++ dumpScalar title).data,
                ("updated: " ++ dumpScalar now).data])))
      = (parseMappingF (f + 3)
          ("tags:".data :: ((t :: ts).map (fun s => ("- " ++ dumpScalar s).data)
            ++ [("title: " ++ dumpScalar title).data,
                ("updated: " ++ dumpScalar now).data]))).map
        (fun m => ("event", Yaml.map
          [("all_day", Yaml.b e.all_day),
           ("calendar", Yaml.s e.calendar),
           ("date", Yaml.s e.date),
           ("id", Yaml.s e.id),
           ("location",
             match e.location with | none => Yaml.null | some l => Yaml.s l),
           ("title", Yaml.s e.title)]) :: m) :=
    fm_event_block (f + 3) e _
      (by
        intro x hx
        injection hx with hx
        rw [← hx]
        exact notIndented_tags_key)
  have h3 : parseMappingF (f + 3)
        ("tags:".data :: ((t :: ts).map (fun s => ("- " ++ dumpScalar s).data)
          ++ [("title: " ++ dumpScalar title).data,
              ("updated: " ++ dumpScalar now).data]))
      = (parseMappingF (f + 2)
          [("title: " ++ dumpScalar title).data,
           ("updated: " ++ dumpScalar now).data]).map
        (fun m => ("tags", Yaml.seq ((t :: ts).map Yaml.s)) :: m) :=
    fm_tags_block (f + 2) t ts _
      (by
        intro x hx
        injection hx with hx
        rw [← hx]
        exact notDash_title_line _)
  have h4 : parseMappingF (f + 2)
        [("title: " ++ dumpScalar title).data, ("updated: " ++ dumpScalar now).data]
      = (parseMappingF (f + 1) [("updated: " ++ dumpScalar now).data]).map
        (fun m => ("title", parseScalar (dumpScalar title).data) :: m) :=
    parseMappingF_scalar (f + 1) "title" (dumpScalar title).data _ (by decide) (by decide)
  have h5 : parseMappingF (f + 1) [("updated: " ++ dumpScalar now).data]
      = (parseMappingF f []).map
        (fun m => ("updated", parseScalar (dumpScalar now).data) :: m) :=
    parseMappingF_scalar f "updated" (dumpScalar now).data _ (by decide) (by decide)
  rw [h1, h2, h3, h4, h5, parseMappingF_nil]
  simp only [Option.map_some', parseScalar_dump]
  rfl


/-! ### Wellformedness of every dumped line -/

theorem noTriple_of_decide (l : List Char) (h : subFind l "---".data = none) :
    noTriple l := h

theorem lastNS_of_closed (k : Char) {l : List Char} (h : l.getLast? = some k)
    (hk : pyIsSpace k = false) : ∀ c, l.getLast? = some c → pyIsSpace c = false := by
  intro c hc
  rw [h] at hc
  injection hc with hc
  rw [← hc]
  exact hk

theorem joinNL_ne_nil2 : ∀ L : List (List Char), L ≠ [] → (∀ l ∈ L, l ≠ []) →
    joinNL L ≠ [] := by
  intro L
  induction L with
  | nil => intro h _; exact absurd rfl h
  | cons l L2 ih =>
    intro _ hall
    cases L2 with
    | nil => exact hall l (List.mem_cons_self _ _)
    | cons m L3 =>
      rw [joinNL_cons_cons]
      intro h0
      rcases List.append_eq_nil.mp h0 with ⟨_, h2⟩
      cases h2

theorem joinNL_getLast_prop (P : Char → Prop) :
    ∀ L : List (List Char),
    (∀ l ∈ L, l ≠ [] ∧ ∀ c, l.getLast? = some c → P c) →
    ∀ c, (joinNL L).getLast? = some c → P c := by
  intro L
  induction L with
  | nil => intro _ c hc; cases hc
  | cons l L2 ih =>
    intro h c hc
    cases L2 with
    | nil => exact (h l (List.mem_cons_self _ _)).2 c hc
    | cons m L3 =>
      rw [joinNL_cons_cons] at hc
      have hjne : joinNL (m :: L3) ≠ [] :=
        joinNL_ne_nil2 (m :: L3) (by simp)
          (fun x hx => (h x (List.mem_cons_of_mem _ hx)).1)
      rw [getLast?_append_right (List.cons_ne_nil _ _),
        getLast?_cons_of_ne_nil hjne] at hc
      exact ih (fun x hx => h x (List.mem_cons_of_mem _ hx)) c hc

theorem marker_prefix (X : List Char) :
    ("---".data).isPrefixOf ('-' :: '-' :: '-' :: X) = true := by
  simp [List.isPrefixOf]

theorem lineOk_created {now : String} (h : scalarOk now = true) :
    lineOk (("created: " ++ dumpScalar now).data) :=
  lineOk_pre_dump "created: " (noTriple_of_decide _ (by decide)) (by decide) (by decide) h

theorem lineOk_updated {now : String} (h : scalarOk now = true) :
    lineOk (("updated: " ++ dumpScalar now).data) :=
  lineOk_pre_dump "updated: " (noTriple_of_decide _ (by decide)) (by decide) (by decide) h

theorem lineOk_title_line {title : String} (h : scalarOk title = true) :
    lineOk (("title: " ++ dumpScalar title).data) :=
  lineOk_pre_dump "title: " (noTriple_of_decide _ (by decide)) (by decide) (by decide) h

theorem lineOk_item {t : String} (h : scalarOk t = true) :
    lineOk (("- " ++ dumpScalar t).data) :=
  lineOk_pre_dump "- " (noTriple_of_decide _ (by decide)) (by decide) (by decide) h

theorem lineOk_ev_key : lineOk ("event:".data) :=
  ⟨noTriple_of_decide _ (by decide), by decide, by decide,
    lastNS_of_closed ':' (by decide) (by decide)⟩

theorem lineOk_tags_key : lineOk ("tags:".data) :=
  ⟨noTriple_of_decide _ (by decide), by decide, by decide,
    lastNS_of_closed ':' (by decide) (by decide)⟩

theorem lineOk_tags_empty : lineOk ("tags: []".data) :=
  ⟨noTriple_of_decide _ (by decide), by decide, by decide,
    lastNS_of_closed ']' (by decide) (by decide)⟩

theorem lineOk_all_day (e : EventMeta) :
    lineOk (("  all_day: " ++ (if e.all_day then "true" else "false")).data) := by
  cases e.all_day
  · exact ⟨noTriple_of_decide _ (by decide), by decide, by decide,
      lastNS_of_closed 'e' (by decide) (by decide)⟩
  · exact ⟨noTriple_of_decide _ (by decide), by decide, by decide,
      lastNS_of_closed 'e' (by decide) (by decide)⟩

theorem lineOk_ev_calendar {e : EventMeta} (h : scalarOk e.calendar = true) :
    lineOk (("  calendar: " ++ dumpScalar e.calendar).data) :=
  lineOk_pre_dump "  calendar: " (noTriple_of_decide _ (by decide)) (by decide) (by decide) h

theorem lineOk_ev_date {e : EventMeta} (h : scalarOk e.date = true) :
    lineOk (("  date: " ++ dumpScalar e.date).data) :=
  lineOk_pre_dump "  date: " (noTriple_of_decide _ (by decide)) (by decide) (by decide) h

theorem lineOk_ev_id {e : EventMeta} (h : scalarOk e.id = true) :
    lineOk (("  id: " ++ dumpScalar e.id).data) :=
  lineOk_pre_dump "  id: " (noTriple_of_decide _ (by decide)) (by decide) (by decide) h

theorem lineOk_ev_location (e : EventMeta)
    (hloc : ∀ l, e.location = some l → scalarOk l = true) :
    lineOk (("  location: " ++
      (match e.location with | none => "null" | some l => dumpScalar l)).data) := by
  cases hl : e.location with
  | none =>
    exact ⟨noTriple_of_decide _ (by decide), by decide, by decide,
      lastNS_of_closed 'l' (by decide) (by decide)⟩
  | some l =>
    exact lineOk_pre_dump "  location: " (noTriple_of_decide _ (by decide))
      (by decide) (by decide) (hloc l hl)

theorem lineOk_ev_title {e : EventMeta} (h : scalarOk e.title = true) :
    lineOk (("  title: " ++ dumpScalar e.title).data) :=
  lineOk_pre_dump "  title: " (noTriple_of_decide _ (by decide)) (by decide) (by decide) h

theorem fmLines_ok (now title : String) (tags : List String) (ev : Option EventMeta)
    (hnow : scalarOk now = true) (htitle : scalarOk title = true)
    (htags : ∀ x ∈ tags, scalarOk x = true) (hev : evOk ev) :
    ∀ l ∈ fmLines now title tags ev, lineOk l := by
  intro l hl
  rcases ev with _ | e
  · rcases tags with _ | ⟨t, ts⟩
    · simp only [fmLines, List.isEmpty_nil, if_true, List.nil_append, List.cons_append,
        List.mem_cons, List.not_mem_nil, or_false] at hl
      rcases hl with rfl | rfl | rfl | rfl
      · exact lineOk_created hnow
      · exact lineOk_tags_empty
      · exact lineOk_title_line htitle
      · exact lineOk_updated hnow
    · simp only [fmLines, List.isEmpty_cons, Bool.false_eq_true, if_false, List.nil_append,
        List.cons_append, List.map_cons, List.mem_cons, List.mem_append,
        List.not_mem_nil, or_false] at hl
      rcases hl with rfl | rfl | rfl | hl2 | rfl | rfl
      · exact lineOk_created hnow
      · exact lineOk_tags_key
      · exact lineOk_item (htags t (List.mem_cons_self _ _))
      · obtain ⟨x, hx, rfl⟩ := List.mem_map.mp hl2
        exact lineOk_item (htags x (List.mem_cons_of_mem _ hx))
      · exact lineOk_title_line htitle
      · exact lineOk_updated hnow
  · obtain ⟨hid, htl, hdt, hcal, hloc⟩ := hev
    rcases tags with _ | ⟨t, ts⟩
    · simp only [fmLines, List.isEmpty_nil, if_true, List.nil_append, List.cons_append,
        List.mem_cons, List.not_mem_nil, or_false] at hl
      rcases hl with rfl | rfl | rfl | rfl | rfl | rfl | rfl | rfl | rfl | rfl | rfl
      · exact lineOk_created hnow
      · exact lineOk_ev_key
      · exact lineOk_all_day e
      · exact lineOk_ev_calendar hcal
      · exact lineOk_ev_date hdt
      · exact lineOk_ev_id hid
      · exact lineOk_ev_location e hloc
      · exact lineOk_ev_title htl
      · exact lineOk_tags_empty
      · exact lineOk_title_line htitle
      · exact lineOk_updated hnow
    · simp only [fmLines, List.isEmpty_cons, Bool.false_eq_true, if_false, List.nil_append,
        List.cons_append, List.map_cons, List.mem_cons, List.mem_append,
        List.not_mem_nil, or_false] at hl
      rcases hl with rfl | rfl | rfl | rfl | rfl | rfl | rfl | rfl | rfl | rfl | hl2 | rfl | rfl
      · exact lineOk_created hnow
      · exact lineOk_ev_key
      · exact lineOk_all_day e
      · exact lineOk_ev_calendar hcal
      · exact lineOk_ev_date hdt
      · exact lineOk_ev_id hid
      · exact lineOk_ev_location e hloc
      · exact lineOk_ev_title htl
      · exact lineOk_tags_key
      · exact lineOk_item (htags t (List.mem_cons_self _ _))
      · obtain ⟨x, hx, rfl⟩ := List.mem_map.mp hl2
        exact lineOk_item (htags x (List.mem_cons_of_mem _ hx))
      · exact lineOk_title_line htitle
      · exact lineOk_updated hnow


/-! ### Evaluating parse_frontmatter on a well-formed document -/

theorem parse_frontmatter_eval {c : String} {k : Nat} {y : Yaml}
    (h1 : ("---".data).isPrefixOf c.data = true)
    (h2 : subFind (c.data.drop 3) "---".data = some k)
    (h3 : ySafeLoad ⟨stripChars ((c.data.drop 3).take k)⟩ = some y)
    (h4 : ¬ y = Yaml.null) :
    parse_frontmatter c = some y := by
  unfold parse_frontmatter
  rw [if_neg (fun hneg => hneg h1), h2]
  cases y with
  | null => exact absurd rfl h4
  | b v => simp only [h3]
  | s v => simp only [h3]
  | seq l => simp only [h3]
  | map m => simp only [h3]

theorem parseMapping_eval (k : Nat) {L : List (List Char)} {E : List (String × Yaml)}
    (h : ∀ f : Nat, parseMappingF (f + k) L = some E) (hk : k ≤ L.length) :
    parseMapping L = some E := by
  have h2 : L.length = (L.length - k) + k := by omega
  rw [parseMapping, h2]
  exact h (L.length - k)

theorem parse_wrapped (L : List (List Char)) (E : List (String × Yaml)) (tail : String)
    (hLok : ∀ l ∈ L, lineOk l)
    (hLnil : L ≠ [])
    (hhead : ∀ c, (joinNL L).head? = some c → pyIsSpace c = false)
    (hpm : parseMapping L = some E) :
    parse_frontmatter ("---\n" ++ ((⟨linesText L⟩ : String) ++ ("---" ++ tail)))
      = some (Yaml.map E) := by
  have hLne : ∀ l ∈ L, l ≠ [] := fun l hl => (hLok l hl).2.2.1
  have hnoNL : ∀ l ∈ L, '\n' ∉ l := fun l hl => (hLok l hl).2.1
  have hJne : joinNL L ≠ [] := joinNL_ne_nil2 L hLnil hLne
  have hlastP : ∀ c, (joinNL L).getLast? = some c → pyIsSpace c = false :=
    joinNL_getLast_prop (fun c => pyIsSpace c = false) L
      (fun l hl => ⟨(hLok l hl).2.2.1, (hLok l hl).2.2.2⟩)
  have hstrip : stripChars ('\n' :: (joinNL L ++ ['\n'])) = joinNL L :=
    stripChars_wrap _ hJne hhead hlastP
  have hJnt : noTriple (joinNL L) := noTriple_joinNL L hLok
  have hant : noTriple ('\n' :: (joinNL L ++ ['\n'])) :=
    noTriple_cons (by decide) (noTriple_concat hJnt (by decide))
  have halast : ¬ ('\n' :: (joinNL L ++ ['\n'])).getLast? = some '-' := by
    rw [show ('\n' :: (joinNL L ++ ['\n'])) = (('\n' :: joinNL L) ++ ['\n']) from rfl]
    rw [List.getLast?_concat]
    intro hx
    injection hx with hx
    exact absurd hx (by decide)
  have hfind : subFind (('\n' :: (joinNL L ++ ['\n'])) ++ ('-' :: '-' :: '-' :: tail.data))
      "---".data = some ('\n' :: (joinNL L ++ ['\n'])).length :=
    subFind_marker_loc hant halast tail.data
  have htake : (('\n' :: (joinNL L ++ ['\n'])) ++ ('-' :: '-' :: '-' :: tail.data)).take
      ('\n' :: (joinNL L ++ ['\n'])).length = '\n' :: (joinNL L ++ ['\n']) :=
    List.take_left _ _
  have hE : ((⟨linesText L⟩ : String)).data = joinNL L ++ ['\n'] := linesText_eq_joinNL L hLnil
  have hcontent : ("---\n" ++ ((⟨linesText L⟩ : String) ++ ("---" ++ tail))).data
      = '-' :: '-' :: '-' :: '\n' ::
          ((joinNL L ++ ['\n']) ++ ('-' :: '-' :: '-' :: tail.data)) := by
    show '-' :: '-' :: '-' :: '\n' ::
        (((⟨linesText L⟩ : String)).data ++ ('-' :: '-' :: '-' :: tail.data))
      = '-' :: '-' :: '-' :: '\n' ::
          ((joinNL L ++ ['\n']) ++ ('-' :: '-' :: '-' :: tail.data))
    rw [hE]
  have hload : ySafeLoad ⟨joinNL L⟩ = some (Yaml.map E) := by
    unfold ySafeLoad
    rw [if_neg (fun hneg => hJne (by simpa [List.isEmpty_iff] using hneg))]
    have hsplit : splitNL ((⟨joinNL L⟩ : String)).data = L := splitNL_joinNL L hLnil hnoNL
    rw [hsplit]
    unfold parseBlock
    rw [hpm]
  have hh1 : ("---".data).isPrefixOf
      ("---\n" ++ ((⟨linesText L⟩ : String) ++ ("---" ++ tail))).data = true := by
    rw [hcontent]
    exact marker_prefix _
  have hh2 : subFind
      ((("---\n" ++ ((⟨linesText L⟩ : String) ++ ("---" ++ tail))).data).drop 3) "---".data
      = some ('\n' :: (joinNL L ++ ['\n'])).length := by
    rw [hcontent]
    exact hfind
  have hh3 : ySafeLoad
      ⟨stripChars (((("---\n" ++ ((⟨linesText L⟩ : String) ++ ("---" ++ tail))).data).drop 3).take
        ('\n' :: (joinNL L ++ ['\n'])).length)⟩ = some (Yaml.map E) := by
    rw [hcontent]
    have ht2 : (('-' :: '-' :: '-' :: '\n' ::
          ((joinNL L ++ ['\n']) ++ ('-' :: '-' :: '-' :: tail.data))).drop 3).take
        ('\n' :: (joinNL L ++ ['\n'])).length = '\n' :: (joinNL L ++ ['\n']) := htake
    rw [ht2, hstrip]
    exact hload
  exact parse_frontmatter_eval hh1 hh2 hh3 (by intro hx; cases hx)


/-! ### The round-trip law for the frontmatter codec -/

theorem encode_decode (now title : String) (tags : List String) (ev : Option EventMeta)
    (tail : String)
    (hnow : scalarOk now = true) (htitle : scalarOk title = true)
    (htags : ∀ x ∈ tags, scalarOk x = true) (hev : evOk ev) :
    parse_frontmatter ("---\n" ++ (encodeFrontmatter now title tags ev ++ ("---" ++ tail)))
      = some (Yaml.map (fmEntries now title tags ev)) := by
  have hLok := fmLines_ok now title tags ev hnow htitle htags hev
  have hLnil : fmLines now title tags ev ≠ [] := List.cons_ne_nil _ _
  have hhead : ∀ c, (joinNL (fmLines now title tags ev)).head? = some c →
      pyIsSpace c = false := by
    have h2 : (joinNL (fmLines now title tags ev)).head?
        = (("created: " ++ dumpScalar now).data).head? :=
      joinNL_head? _ _ (List.cons_ne_nil _ _)
    intro c hc
    rw [h2] at hc
    have hc2 : some 'c' = some c := hc
    injection hc2 with hc2
    rw [← hc2]
    decide
  have hpm : parseMapping (fmLines now title tags ev)
      = some (fmEntries now title tags ev) := by
    rcases ev with _ | e
    · rcases tags with _ | ⟨t, ts⟩
      · exact parseMapping_eval 4 (fun f => fm_steps_none_nil f now title)
          (by simp [fmLines])
      · exact parseMapping_eval 4 (fun f => fm_steps_none_cons f now title t ts)
          (by simp [fmLines])
    · rcases tags with _ | ⟨t, ts⟩
      · exact parseMapping_eval 5 (fun f => fm_steps_some_nil f now title e)
          (by simp [fmLines])
      · exact parseMapping_eval 5 (fun f => fm_steps_some_cons f now title t ts e)
          (by simp [fmLines])
  exact parse_wrapped (fmLines now title tags ev) (fmEntries now title tags ev) tail
    hLok hLnil hhead hpm


/-- C2: for all valid inputs — a title, tags and optional event whose
    rendered field strings contain neither the marker "---" nor a newline
    (everything else round-trips: yaml.dump writes the scalar plain, or
    single-quotes it when the plain form would re-load as another type,
    so commas, punctuation, non-ASCII text, digit-leading strings and
    the YAML keywords are all covered) — decoding the frontmatter block
    produced by encoding those inputs recovers the same title, the same
    tag sequence in order, and the same event sub-field values (the full
    parsed mapping is fmEntries, which lists title, tags in order, and
    every event sub-field verbatim).  A marker inside a value breaks the
    law, see the counterexample. -/
theorem frontmatter_roundtrip (now : PyDateTime) (title : String) (tags : List String)
    (event : Option CalendarEvent) (tail : String)
    (hnow : scalarOk now.iso = true)
    (htitle : scalarOk title = true)
    (htags : ∀ x ∈ tags, scalarOk x = true)
    (hev : evOk (event.map CalendarEvent.meta)) :
    parse_frontmatter
        ("---\n" ++ (create_frontmatter now title event (some tags) ++ ("---" ++ tail)))
      = some (Yaml.map (fmEntries now.iso title tags (event.map CalendarEvent.meta))) :=
  encode_decode now.iso title tags (event.map CalendarEvent.meta) tail hnow htitle htags hev

theorem frontmatter_roundtrip_witness :
    parse_frontmatter
        ("---\n" ++ (create_frontmatter ⟨2024, 1, 2, 3, 4, 5⟩ "Team Meeting"
            (some ⟨"abc123", "Team Meeting", ⟨2024, 1, 2, 3, 4, 5⟩, ⟨2024, 1, 2, 4, 4, 5⟩,
              "Work", some "Room 5", none, false⟩) (some ["work", "sync"])
          ++ ("---" ++ "\nrest")))
      = some (Yaml.map (fmEntries (PyDateTime.iso ⟨2024, 1, 2, 3, 4, 5⟩) "Team Meeting"
          ["work", "sync"]
          ((some (⟨"abc123", "Team Meeting", ⟨2024, 1, 2, 3, 4, 5⟩, ⟨2024, 1, 2, 4, 4, 5⟩,
              "Work", some "Room 5", none, false⟩ : CalendarEvent)).map
            CalendarEvent.meta))) :=
  frontmatter_roundtrip ⟨2024, 1, 2, 3, 4, 5⟩ "Team Meeting" ["work", "sync"]
    (some ⟨"abc123", "Team Meeting", ⟨2024, 1, 2, 3, 4, 5⟩, ⟨2024, 1, 2, 4, 4, 5⟩,
      "Work", some "Room 5", none, false⟩) "\nrest"
    (by decide) (by decide) (by decide)
    ⟨by decide, by decide, by decide, by decide,
      fun l hl => by
        injection hl with hl
        rw [← hl]
        decide⟩

/-- C2 counterexample: with the valid-looking title "x --- y" the
    round-trip fails — the dumped title text contains the marker, so the
    decoder cuts the block short: the parsed mapping has title "x", not
    "x --- y", and has no updated key at all. -/
theorem frontmatter_roundtrip_counterexample :
    parse_frontmatter
        ("---\n" ++ (create_frontmatter ⟨2024, 1, 2, 3, 4, 5⟩ "x --- y" none none
          ++ ("---" ++ "\n")))
      = some (Yaml.map [("created", Yaml.s "2024-01-02T03:04:05"),
          ("tags", Yaml.seq []), ("title", Yaml.s "x")])
    ∧ ¬ ("x" : String) = "x --- y" :=
  ⟨rfl, by decide⟩


/-! ### Idempotence of event-note creation -/

theorem load_note_filepath {p : String} {f : Fil} {now : String} {n : PyNote}
    (h : load_note p f now = some n) : n.filepath = p := by
  unfold load_note at h
  repeat' split at h
  all_goals try simp only [] at h
  repeat' split at h
  all_goals try exact Option.noConfusion h
  all_goals injection h with h
  all_goals rw [← h]

theorem find?_append_none {α : Type} (p : α → Bool) {a : List α} (b : List α)
    (h : a.find? p = none) : (a ++ b).find? p = b.find? p := by
  induction a with
  | nil => rfl
  | cons x a2 ih =>
    cases hpx : p x with
    | true =>
      rw [List.find?_cons_of_pos _ hpx] at h
      cases h
    | false =>
      rw [List.find?_cons_of_neg _ (by simp [hpx])] at h
      rw [List.cons_append, List.find?_cons_of_neg _ (by simp [hpx])]
      exact ih h

theorem fsExists_append_self {fs : FS} {P : String} (file : Fil)
    (h : fsExists fs P = false) : fsExists (fs ++ [(P, file)]) P = true := by
  unfold fsExists fsRead at h ⊢
  have hf : fs.find? (fun e => e.1 = P) = none := by
    cases hx : fs.find? (fun e => e.1 = P) with
    | none => rfl
    | some v =>
      rw [hx] at h
      cases h
  rw [find?_append_none _ _ hf]
  rw [List.find?_cons_of_pos _ (by simp)]
  rfl

theorem find_after_write {fs : FS} {now : String} {eid P : String} {file : Fil}
    (hnone : find_note_for_event fs now eid = none)
    {n : PyNote}
    (hfind : find_note_for_event (fs ++ [(P, file)]) now eid = some n) :
    n.filepath = P := by
  unfold find_note_for_event at hnone hfind
  have hmem0 : n ∈ get_event_notes (fs ++ [(P, file)]) now :=
    List.mem_of_find?_eq_some hfind
  have hpred := List.find?_some hfind
  have hmem : n ∈ ((fs ++ [(P, file)]).filter (fun e => isMdInEvents e.1)).filterMap
      (fun e => load_note e.1 e.2 now) :=
    (pySortRevByKey_perm (fun n : PyNote => n.event_date.getD n.created_at) _).mem_iff.mp hmem0
  rw [List.filter_append, List.filterMap_append] at hmem
  rcases List.mem_append.mp hmem with hold | hnew
  · exfalso
    have hmem2 : n ∈ get_event_notes fs now :=
      (pySortRevByKey_perm (fun n : PyNote => n.event_date.getD n.created_at) _).mem_iff.mpr hold
    have hnone2 := List.find?_eq_none.mp hnone n hmem2
    exact absurd hpred hnone2
  · cases hmd : isMdInEvents P with
    | false => simp [List.filter_cons, hmd] at hnew
    | true =>
      simp only [List.filter_cons, hmd, if_true, List.filter_nil] at hnew
      cases hload : load_note P file now with
      | none => simp [List.filterMap_cons, hload] at hnew
      | some m =>
        simp only [List.filterMap_cons, hload, List.filterMap_nil,
          List.mem_singleton] at hnew
        rw [hnew]
        exact load_note_filepath hload


/-- C6: create_note_for_event is idempotent — when a file already exists
    at the computed event path the call returns that path with the
    filesystem unchanged — and get_or_create_note_for_event called twice
    for the same event (at the same clock reading, any agenda outcomes)
    returns the same path both times while the second call leaves the
    filesystem exactly as the first call left it. -/
theorem note_create_idempotent (fs : FS) (now : PyDateTime) (e : CalendarEvent)
    (agenda agenda2 : Option String) :
    (fsExists fs ("notes/events/" ++ generate_event_filename e) = true →
      create_note_for_event fs now e agenda
        = ("notes/events/" ++ generate_event_filename e, fs))
    ∧ get_or_create_note_for_event
        (get_or_create_note_for_event fs now e agenda).2 now e agenda2
      = ((get_or_create_note_for_event fs now e agenda).1,
         (get_or_create_note_for_event fs now e agenda).2) := by
  constructor
  · intro hex
    unfold create_note_for_event
    rw [if_pos hex]
  · cases hfind : find_note_for_event fs now.iso e.event_id with
    | some n =>
      have h1 : get_or_create_note_for_event fs now e agenda = (n.filepath, fs) := by
        unfold get_or_create_note_for_event
        rw [hfind]
      rw [h1]
      show get_or_create_note_for_event fs now e agenda2 = (n.filepath, fs)
      unfold get_or_create_note_for_event
      rw [hfind]
    | none =>
      have h1 : get_or_create_note_for_event fs now e agenda
          = create_note_for_event fs now e agenda := by
        unfold get_or_create_note_for_event
        rw [hfind]
      cases hex : fsExists fs ("notes/events/" ++ generate_event_filename e) with
      | true =>
        have h2 : create_note_for_event fs now e agenda
            = ("notes/events/" ++ generate_event_filename e, fs) := by
          unfold create_note_for_event
          rw [if_pos hex]
        rw [h1, h2]
        show get_or_create_note_for_event fs now e agenda2
          = ("notes/events/" ++ generate_event_filename e, fs)
        unfold get_or_create_note_for_event
        rw [hfind]
        unfold create_note_for_event
        rw [if_pos hex]
      | false =>
        have h2 : create_note_for_event fs now e agenda
            = ("notes/events/" ++ generate_event_filename e,
               fs ++ [("notes/events/" ++ generate_event_filename e,
                 ⟨create_note_template now e.title (some e) agenda, now.iso, now.iso⟩)]) := by
          unfold create_note_for_event
          rw [if_neg (by simp [hex])]
          unfold fsWrite
          rw [if_neg (by simp [hex])]
        rw [h1, h2]
        show get_or_create_note_for_event
            (fs ++ [("notes/events/" ++ generate_event_filename e,
              ⟨create_note_template now e.title (some e) agenda, now.iso, now.iso⟩)])
            now e agenda2
          = ("notes/events/" ++ generate_event_filename e,
             fs ++ [("notes/events/" ++ generate_event_filename e,
               ⟨create_note_template now e.title (some e) agenda, now.iso, now.iso⟩)])
        cases hfind2 : find_note_for_event
            (fs ++ [("notes/events/" ++ generate_event_filename e,
              ⟨create_note_template now e.title (some e) agenda, now.iso, now.iso⟩)])
            now.iso e.event_id with
        | some n =>
          unfold get_or_create_note_for_event
          rw [hfind2]
          show (n.filepath, _) = _
          rw [find_after_write hfind hfind2]
        | none =>
          unfold get_or_create_note_for_event
          rw [hfind2]
          unfold create_note_for_event
          rw [if_pos (fsExists_append_self _ hex)]

theorem note_create_idempotent_witness :
    fsExists [("notes/events/2024-01-02_0900_Standup.md", (⟨"x", "t", "t"⟩ : Fil))]
        ("notes/events/" ++ generate_event_filename
          ⟨"id1", "Standup", ⟨2024, 1, 2, 9, 0, 0⟩, ⟨2024, 1, 2, 9, 30, 0⟩,
            "Work", none, none, false⟩) = true
    ∧ create_note_for_event [("notes/events/2024-01-02_0900_Standup.md", ⟨"x", "t", "t"⟩)]
        ⟨2024, 1, 2, 8, 0, 0⟩
        ⟨"id1", "Standup", ⟨2024, 1, 2, 9, 0, 0⟩, ⟨2024, 1, 2, 9, 30, 0⟩,
          "Work", none, none, false⟩ none
      = ("notes/events/" ++ generate_event_filename
          ⟨"id1", "Standup", ⟨2024, 1, 2, 9, 0, 0⟩, ⟨2024, 1, 2, 9, 30, 0⟩,
            "Work", none, none, false⟩,
         [("notes/events/2024-01-02_0900_Standup.md", ⟨"x", "t", "t"⟩)]) := by
  have h := (note_create_idempotent
    [("notes/events/2024-01-02_0900_Standup.md", ⟨"x", "t", "t"⟩)]
    ⟨2024, 1, 2, 8, 0, 0⟩
    ⟨"id1", "Standup", ⟨2024, 1, 2, 9, 0, 0⟩, ⟨2024, 1, 2, 9, 30, 0⟩,
      "Work", none, none, false⟩ none none).1
  exact ⟨by decide, h (by decide)⟩

end CalNotes
